import Mathlib

/-!
Verification of the Tibber data coordinator
(`custom_components/tibber_data/sensor.py`).

Shallow embedding conventions:
* Local-time instants are modelled as `Int` seconds since a local epoch
  midnight.  Python's `datetime.date()` is integer division by 86400
  (Lean's `Int` division is Euclidean, which coincides with Python's
  floor division for our positive divisors), `.hour` is
  `t % 86400 / 3600`, and `.replace(...)` is arithmetic on those parts.
  Month/year extraction uses the standard civil-from-days Gregorian
  conversion.  Sub-second precision is dropped (every claim is at
  second granularity or coarser).
* Python floats are modelled as `ℚ`.  Python's `/` raises
  `ZeroDivisionError` on a zero denominator, so the embedding guards
  every division explicitly.
* Python exceptions are modelled as an `Option PyErr` component of each
  result (`none` = normal return), mirroring where mutations of the
  shared `data` dict have already happened when the exception escapes.
-/

/-! ## Local-time arithmetic -/

/-- Python `dt.date()` as a day number: floor division of the local
epoch-seconds timestamp by 86400. -/
def dateOf (t : Int) : Int := t / 86400

/-- Python `dt.hour` of a local timestamp. -/
def hourOf (t : Int) : Int := t % 86400 / 3600

/-- Gregorian civil date `(year, month, day)` from a day number
(days since 1970-01-01), the standard civil-from-days conversion. -/
def civilFromDays (z0 : Int) : Int × Int × Int :=
  let z := z0 + 719468
  let era := z / 146097
  let doe := z % 146097
  let yoe := (doe - doe / 1460 + doe / 36524 - doe / 146096) / 365
  let y := yoe + era * 400
  let doy := doe - (365 * yoe + yoe / 4 - yoe / 100)
  let mp := (5 * doy + 2) / 153
  let d := doy - (153 * mp + 2) / 5 + 1
  let m := if mp < 10 then mp + 3 else mp - 9
  (if m ≤ 2 then y + 1 else y, m, d)

/-- Python `dt.month` of a local timestamp. -/
def monthOf (t : Int) : Int := (civilFromDays (dateOf t)).2.1

/-- Python `dt.year` of a local timestamp. -/
def yearOf (t : Int) : Int := (civilFromDays (dateOf t)).1

/-- `date.month == now.month and date.year == now.year`. -/
def sameMonth (a b : Int) : Bool :=
  decide (monthOf a = monthOf b) && decide (yearOf a = yearOf b)

/-- `(now + timedelta(hours=1)).replace(minute=2, second=0, microsecond=0)`. -/
def nextHourAtMinute2 (now : Int) : Int := (now + 3600) / 3600 * 3600 + 120

/-- `(now + timedelta(days=1)).replace(hour=3, minute=0, second=0, microsecond=0)`. -/
def tomorrowAt3 (now : Int) : Int := dateOf (now + 86400) * 86400 + 3 * 3600

/-- `(now + timedelta(days=1)).replace(hour=13, minute=0, second=0, microsecond=0)`. -/
def tomorrowAt13 (now : Int) : Int := dateOf (now + 86400) * 86400 + 13 * 3600

/-- `now.replace(hour=13, minute=1, second=0, microsecond=0)`. -/
def todayAt1301 (now : Int) : Int := dateOf now * 86400 + 13 * 3600 + 60

/-- `now.replace(hour=15, minute=0, second=0, microsecond=0)`. -/
def todayAt15 (now : Int) : Int := dateOf now * 86400 + 15 * 3600

/-- `now.replace(hour=0, minute=0, second=0, microsecond=0) + timedelta(days=1)`. -/
def tomorrowAt0 (now : Int) : Int := dateOf now * 86400 + 86400

/-- `dt_util.now().replace(minute=0, second=0, microsecond=0)`: the
current hour boundary used as the grid-price dictionary key. -/
def hourFloor (now : Int) : Int := now / 3600 * 3600

/-! ## Data entities -/

/-- Python exceptions the embedded code can raise. -/
inductive PyErr where
  | fetchError
  | zeroDivision
  | typeError
deriving DecidableEq, Repr

/-- One raw hourly sample from `get_historic_data` (`hour.get("from")`
already parsed to a local timestamp). -/
structure RawHour where
  fromTime : Int
  consumption : Option ℚ
  unitPrice : Option ℚ
  cost : Option ℚ
deriving DecidableEq, Repr

/-- The `Consumption` class of `sensor.py`. -/
structure Consumption where
  timestamp : Int
  cons : Option ℚ
  price : Option ℚ
  cost : Option ℚ
deriving DecidableEq, Repr

/-- `Consumption.day`: the local calendar date of the timestamp. -/
def dayOfC (c : Consumption) : Int := dateOf c.timestamp

/-- The consumption value of a record; entries fed to the peak tracker
always have known consumption, so the default is never read there. -/
def valOf (c : Consumption) : ℚ := c.cons.getD 0

/-- `Consumption.__lt__`. -/
def consLT (a b : Consumption) : Bool :=
  match a.cons, b.cons with
  | none, none => decide (a.timestamp < b.timestamp)
  | none, some _ => true
  | some _, none => false
  | some x, some y => decide (x < y)

/-- Python `a > b` for `Consumption`: no `__gt__` is defined, so it is
the reflected `b.__lt__(a)`. -/
def consGT (a b : Consumption) : Bool := consLT b a

/-- `month_consumption.add(c)`: Python `set.add` with
equality-by-timestamp keeps the element already present and silently
drops the new one on a duplicate. -/
def setAdd (s : List Consumption) (c : Consumption) : List Consumption :=
  if s.any (fun x => x.timestamp = c.timestamp) then s else s ++ [c]

/-- No two records of the ledger share a timestamp. -/
def tsNodup (s : List Consumption) : Prop :=
  List.Pairwise (fun a b => a.timestamp ≠ b.timestamp) s

instance (s : List Consumption) : Decidable (tsNodup s) := by
  unfold tsNodup; infer_instance

/-- Python dict insert `m[k] = v` on an hour-keyed price map. -/
def dictInsert (m : List (Int × ℚ)) (k : Int) (v : ℚ) : List (Int × ℚ) :=
  if m.any (fun p => p.1 = k) then
    m.map (fun p => if p.1 = k then (k, v) else p)
  else m ++ [(k, v)]

/-- Python dict `m.get(k)`. -/
def dictGet (m : List (Int × ℚ)) (k : Int) : Option ℚ :=
  (m.find? (fun p => decide (p.1 = k))).map (fun p => p.2)

/-- Build the `grid_price` dict from the fetched hourly entries. -/
def buildMap (entries : List (Int × ℚ)) : List (Int × ℚ) :=
  entries.foldl (fun m e => dictInsert m e.1 e.2) []

/-- The coordinator `data` dict.  `none` models a missing key (for the
keys below a stored value is never Python `None` except
`peak_consumption`/attrs, where a stored `None` and a missing key are
indistinguishable to every reader). -/
structure DataState where
  peak_consumption : Option ℚ := none
  peak_consumption_attrs : Option (List Int × List ℚ) := none
  monthly_avg_price : Option ℚ := none
  est_subsidy : Option ℚ := none
  customer_avg_price : Option ℚ := none
  daily_cost_with_subsidy : Option ℚ := none
  monthly_cost_with_subsidy : Option ℚ := none
  grid_price : Option (List (Int × ℚ)) := none
deriving DecidableEq, Repr

/-! ## Primary fetcher `_get_data`: peak-tracker pass -/

/-- The scan `for k, _cons in enumerate(max_month): if cons.day == _cons.day:
...` — replace the first same-day entry by `cons` when `cons` is greater,
and report whether a same-day entry was found (`same_day`). -/
def sameDayScan : List Consumption → Consumption → List Consumption × Bool
  | [], _ => ([], false)
  | x :: xs, c =>
    if dayOfC x = dayOfC c then
      (if consGT c x then (c :: xs, true) else (x :: xs, true))
    else
      let r := sameDayScan xs c
      (x :: r.1, r.2)

/-- Insertion step for descending sort by `Consumption.__lt__`. -/
def insertDesc (c : Consumption) : List Consumption → List Consumption
  | [] => [c]
  | x :: xs => if consLT c x then x :: insertDesc c xs else c :: x :: xs

/-- `max_month.sort(reverse=True)` (descending by `Consumption.__lt__`;
the claims below only depend on the sorted consumption values, which
are insensitive to how ties are ordered). -/
def sortDescC : List Consumption → List Consumption
  | [] => []
  | x :: xs => insertDesc x (sortDescC xs)

/-- The body of lines 253–265: possibly fold one known-consumption
record into the ≤3-entry `max_month` tracker. -/
def updMax (mm : List Consumption) (c : Consumption) : List Consumption :=
  let gate := decide (mm.length < 3) ||
    (match mm.getLast? with
     | some l => consGT c l
     | none => false)
  if gate then
    let scan := sameDayScan mm c
    let mm2 := if scan.2 then scan.1 else scan.1 ++ [c]
    let mm3 := sortDescC mm2
    if 3 < mm3.length then mm3.dropLast else mm3
  else mm

/-- State of the `for _hour in cons_data:` loop. -/
structure LoopState where
  mm : List Consumption
  mc : List Consumption
  yest : Bool
  today : Bool
deriving DecidableEq, Repr

/-- One iteration of the `for _hour in cons_data:` loop (lines 239–265). -/
def peakStep (now : Int) (st : LoopState) (h : RawHour) : LoopState :=
  match h.consumption with
  | none => st
  | some v =>
    if sameMonth h.fromTime now then
      let yest := st.yest || decide (dateOf h.fromTime = dateOf now - 1)
      let today := st.today || decide (h.fromTime = now - 3600)
      let c : Consumption := ⟨h.fromTime, some v, h.unitPrice, h.cost⟩
      ⟨updMax st.mm c, setAdd st.mc c, yest, today⟩
    else st

/-- The whole consumption loop from the empty state. -/
def loopResult (lst : List RawHour) (now : Int) : LoopState :=
  lst.foldl (peakStep now) ⟨[], [], false, false⟩

/-- `sum(max_month)`: via `Consumption.__radd__` this is the sum of the
consumption values. -/
def sumVals (mm : List Consumption) : ℚ := (mm.map valOf).sum

/-- Lines 266–274: the published `peak_consumption` value. -/
def codePeak (mm : List Consumption) : Option ℚ :=
  if mm.isEmpty then none else some (sumVals mm / mm.length)

/-- Lines 266–274: the published `peak_consumption_attrs` value. -/
def codeAttrs (mm : List Consumption) : Option (List Int × List ℚ) :=
  if mm.isEmpty then none
  else some (mm.map (fun c => c.timestamp), mm.map valOf)

/-! ## Primary fetcher `_get_data`: price loop, schedule, aggregates -/

/-- Lines 291–298: fold `price_total` into the ledger as price-only
records and detect whether tomorrow's prices are published.  The
tomorrow test runs before the month filter, as in the source. -/
def priceFold (pt : List (Int × ℚ)) (now : Int) (mc : List Consumption) :
    List Consumption × Bool :=
  pt.foldl
    (fun acc kv =>
      let tom := acc.2 || decide (dateOf kv.1 = dateOf now + 1)
      if sameMonth kv.1 now then (setAdd acc.1 ⟨kv.1, none, some kv.2, none⟩, tom)
      else (acc.1, tom))
    (mc, false)

/-- The in-month ledger `month_consumption` stashed in
`hass.data[DOMAIN]`, together with the tomorrow-prices flag. -/
def monthLedger (lst : List RawHour) (pt : List (Int × ℚ)) (now : Int) :
    List Consumption × Bool :=
  priceFold pt now (loopResult lst now).mc

/-- Accumulators of the aggregate loop (lines 319–338):
`_total_price`, `_n_price`, `total_price`, `n_price`, `total_cost`,
`total_cost_day`, `total_cons`, `total_cons_day`. -/
structure Totals where
  tp0 : ℚ := 0
  np0 : ℚ := 0
  tp : ℚ := 0
  np : ℚ := 0
  tc : ℚ := 0
  tcd : ℚ := 0
  tcons : ℚ := 0
  tconsd : ℚ := 0
deriving DecidableEq, Repr

/-- Python truthiness of `cons.price` (`None` and `0.0` are falsy). -/
def truthyPrice (c : Consumption) : Bool :=
  match c.price with
  | some p => decide (p ≠ 0)
  | none => false

/-- `cons.price if cons.price else 0`. -/
def priceOrZero (c : Consumption) : ℚ :=
  if truthyPrice c then c.price.getD 0 else 0

/-- One iteration of the aggregate loop (lines 327–338). -/
def totalsStep (now : Int) (t : Totals) (c : Consumption) : Totals :=
  let t1 := { t with tp0 := t.tp0 + priceOrZero c,
                     np0 := t.np0 + (if truthyPrice c then 1 else 0) }
  match c.cost, c.cons with
  | some cost, some cons =>
    let t2 := { t1 with tp := t1.tp + priceOrZero c,
                        np := t1.np + (if truthyPrice c then 1 else 0),
                        tc := t1.tc + cost, tcons := t1.tcons + cons }
    if dayOfC c = dateOf now then
      { t2 with tcd := t2.tcd + cost, tconsd := t2.tconsd + cons }
    else t2
  | _, _ => t1

/-- The aggregate loop over the ledger. -/
def computeTotals (ledger : List Consumption) (now : Int) : Totals :=
  ledger.foldl (totalsStep now) {}

/-- Lines 339–348: derived metrics; each Python `/` raises
`ZeroDivisionError` on a zero denominator, leaving the keys already
assigned in place. -/
def computeAggregates (ledger : List Consumption) (now : Int) (d : DataState) :
    DataState × Option PyErr :=
  let t := computeTotals ledger now
  if t.np = 0 then (d, some .zeroDivision) else
  let d1 := { d with monthly_avg_price := some (t.tp / t.np) }
  if t.np0 = 0 then (d1, some .zeroDivision) else
  let es := (t.tp0 / t.np0 - 7 / 8) * (9 / 10)
  let d2 := { d1 with est_subsidy := some es }
  if t.tcons = 0 then (d2, some .zeroDivision) else
  (({ d2 with customer_avg_price := some (t.tc / t.tcons),
              daily_cost_with_subsidy := some (t.tcd - es * t.tconsd),
              monthly_cost_with_subsidy := some (t.tc - es * t.tcons) } : DataState),
   none)

/-- Result of one `_get_data` invocation: the `data` dict, the stashed
month ledger, the returned next-due time (`none` when an exception
escaped before the `return`), and the escaped exception if any. -/
structure GetDataRes where
  data : DataState
  stash : List Consumption
  next : Option Int
  err : Option PyErr
deriving DecidableEq, Repr

/-- `_get_data` (lines 230–349).  `consData` is the result of the
`get_historic_data` call; an exception there escapes before any
mutation. -/
def getData (consData : Except Unit (List RawHour)) (hasRT : Bool)
    (pt : List (Int × ℚ)) (d : DataState) (stash : List Consumption)
    (now : Int) : GetDataRes :=
  match consData with
  | .error _ => ⟨d, stash, none, some .fetchError⟩
  | .ok lst =>
    let st := loopResult lst now
    let d1 := { d with peak_consumption := codePeak st.mm,
                       peak_consumption_attrs := codeAttrs st.mm }
    let nu1 :=
      if hasRT then
        (if st.today then nextHourAtMinute2 now else now + 120)
      else if st.yest then tomorrowAt3 now
      else now + 900
    let pr := priceFold pt now st.mc
    let nu2 :=
      if pr.2 then min nu1 (tomorrowAt13 now)
      else if 13 ≤ hourOf now then min nu1 (now + 120)
      else min nu1 (todayAt1301 now)
    match computeAggregates pr.1 now d1 with
    | (d2, some e) => ⟨d2, pr.1, none, some e⟩
    | (d2, none) => ⟨d2, pr.1, some nu2, none⟩

/-! ## Secondary fetcher `_get_data_tibber` -/

/-- External collaborators of one tick: the primary fetch result, the
live-home flags/price map, the auth result, and the grid-price fetch
result (`.ok none` = fetch succeeded but our home id was absent). -/
structure Env where
  consData : Except Unit (List RawHour)
  hasRT : Bool
  priceTotal : List (Int × ℚ)
  authToken : Option Nat
  gridFetch : Except Unit (Option (List (Int × ℚ)))

/-- Lines 208–228 of `_get_data_tibber`, after a token is in hand:
returns the new cached token, the new `data` dict, and the next-due. -/
def tibberAfterAuth (env : Env) (t : Nat) (d : DataState) (now : Int) :
    Option Nat × DataState × Int :=
  match env.gridFetch with
  | .error _ => (none, d, now + 120)
  | .ok homeEntries =>
    let d1 :=
      match homeEntries with
      | none => d
      | some entries => { d with grid_price := some (buildMap entries) }
    (some t, d1, if hourOf now < 15 then todayAt15 now else tomorrowAt0 now)

/-- `_get_data_tibber` (lines 200–228). -/
def getDataTibber (env : Env) (token0 : Option Nat) (d : DataState) (now : Int) :
    Option Nat × DataState × Int :=
  match token0 with
  | some t => tibberAfterAuth env t d now
  | none =>
    match env.authToken with
    | none => (none, d, now + 120)
    | some t => tibberAfterAuth env t d now

/-! ## Scheduler `_async_update_data` -/

/-- Coordinator state shared across ticks. -/
structure CoordState where
  data : DataState
  stash : List Consumption
  nextDueGet : Int
  nextDueTibber : Option Int
  token : Option Nat
deriving DecidableEq, Repr

/-- The secondary fetcher's turn inside a tick (runs only when it is
registered and due; it never raises). -/
def runTibber (env : Env) (st : CoordState) (now : Int) :
    CoordState × Option PyErr :=
  match st.nextDueTibber with
  | none => (st, none)
  | some nd =>
    if nd ≤ now then
      let r := getDataTibber env st.token st.data now
      ({ st with token := r.1, data := r.2.1, nextDueTibber := some r.2.2 }, none)
    else (st, none)

/-- `_async_update_data` (lines 190–198): run each due fetcher in
registration order; a fetcher's `next_update` entry is reassigned only
when the fetcher returns, and an escaped exception aborts the loop. -/
def asyncUpdateData (env : Env) (st : CoordState) (now : Int) :
    CoordState × Option PyErr :=
  if st.nextDueGet ≤ now then
    let r := getData env.consData env.hasRT env.priceTotal st.data st.stash now
    let st1 : CoordState :=
      { st with data := r.data, stash := r.stash,
                nextDueGet := r.next.getD st.nextDueGet }
    match r.err with
    | some e => (st1, some e)
    | none => runTibber env st1 now
  else runTibber env st now

/-! ## Presentation layer `_handle_coordinator_update` -/

/-- The sensor keys of this integration. -/
inductive SensorKey where
  | peak_consumption
  | monthly_avg_price
  | customer_avg_price
  | est_subsidy
  | est_current_price_with_subsidy
  | daily_cost_with_subsidy
  | monthly_cost_with_subsidy
  | total_price_with_subsidy
  | grid_price
deriving DecidableEq, Repr

/-- Lines 135–155: the raw `native_value` computed for a key.
`livePrice` is `current_price_data()[0]` (`none` when the live price is
unavailable).  Adding or subtracting `None` raises `TypeError`. -/
def computeNativeValue (key : SensorKey) (d : DataState) (livePrice : Option ℚ)
    (now : Int) : Except PyErr (Option ℚ) :=
  match key with
  | .est_current_price_with_subsidy =>
    match livePrice with
    | none => .error .typeError
    | some p => .ok (some (p - d.est_subsidy.getD 0))
  | .grid_price => .ok (dictGet (d.grid_price.getD []) (hourFloor now))
  | .total_price_with_subsidy =>
    match dictGet (d.grid_price.getD []) (hourFloor now), livePrice with
    | some g, some p => .ok (some (g + p - d.est_subsidy.getD 0))
    | _, _ => .error .typeError
  | .peak_consumption => .ok d.peak_consumption
  | .monthly_avg_price => .ok d.monthly_avg_price
  | .customer_avg_price => .ok d.customer_avg_price
  | .est_subsidy => .ok d.est_subsidy
  | .daily_cost_with_subsidy => .ok d.daily_cost_with_subsidy
  | .monthly_cost_with_subsidy => .ok d.monthly_cost_with_subsidy

/-- Python `round` to an integer: round-half-to-even. -/
def roundHalfEven (q : ℚ) : Int :=
  if q - ⌊q⌋ < 1 / 2 then ⌊q⌋
  else if 1 / 2 < q - ⌊q⌋ then ⌊q⌋ + 1
  else if 2 ∣ ⌊q⌋ then ⌊q⌋ else ⌊q⌋ + 1

/-- Python `round(q, 2)`. -/
def pyRound2 (q : ℚ) : ℚ := roundHalfEven (q * 100) / 100

/-- `round(native_value, 2) if native_value else native_value`
(`None` and `0.0` are falsy and pass through unrounded). -/
def publishRound (v : Option ℚ) : Option ℚ :=
  match v with
  | none => none
  | some q => if q = 0 then some q else some (pyRound2 q)

/-- `_handle_coordinator_update` for one key: the published
`native_value`, or the exception that escaped the callback. -/
def handleCoordinatorUpdate (key : SensorKey) (d : DataState)
    (livePrice : Option ℚ) (now : Int) : Except PyErr (Option ℚ) :=
  (computeNativeValue key d livePrice now).map publishRound

/-! ## Spec-side definitions (from the specification's words) -/

/-- Modelled from the spec: the base next-due of the primary fetcher —
if real-time consumption metering is available: 2 minutes when "this
hour" is not yet available, else next hour at minute 2; else if
yesterday's consumption is available: tomorrow at 03:00; else now + 15
minutes. -/
def specBaseNext (hasRT today yest : Bool) (now : Int) : Int :=
  if hasRT then
    (if today then nextHourAtMinute2 now else now + 120)
  else if yest then tomorrowAt3 now
  else now + 900

/-- Modelled from the spec: the price-publication cap — tomorrow 13:00
if tomorrow's prices are published, else now + 2 minutes when the
current hour is ≥ 13, else today at 13:01. -/
def specCapNext (tomorrowPrices : Bool) (now : Int) : Int :=
  if tomorrowPrices then tomorrowAt13 now
  else if 13 ≤ hourOf now then now + 120
  else todayAt1301 now

/-- The availability flags the primary fetcher tracks, as computed by
its consumption loop. -/
def todayAvail (lst : List RawHour) (now : Int) : Bool := (loopResult lst now).today

/-- Whether "yesterday" had known in-month consumption, as computed by
the consumption loop. -/
def yestAvail (lst : List RawHour) (now : Int) : Bool := (loopResult lst now).yest

/-- Whether tomorrow's prices are already published, as computed by the
price loop. -/
def tomorrowPricesAvail (lst : List RawHour) (pt : List (Int × ℚ)) (now : Int) :
    Bool :=
  (monthLedger lst pt now).2

/-- The `(day, consumption)` pairs of the in-month known-consumption
raw records, in input order. -/
def monthPairs (lst : List RawHour) (now : Int) : List (Int × ℚ) :=
  lst.filterMap fun h =>
    match h.consumption with
    | none => none
    | some v =>
      if sameMonth h.fromTime now then some (dateOf h.fromTime, v) else none

/-- Fold one `(day, value)` pair into a per-day-maximum table. -/
def dayMaxFold (m : List (Int × ℚ)) (p : Int × ℚ) : List (Int × ℚ) :=
  if m.any (fun q => q.1 = p.1) then
    m.map (fun q => if q.1 = p.1 then (q.1, max q.2 p.2) else q)
  else m ++ [p]

/-- Modelled from the spec: the per-day maximum consumption of every
day that has an in-month known-consumption record. -/
def dayMaxima (lst : List RawHour) (now : Int) : List (Int × ℚ) :=
  (monthPairs lst now).foldl dayMaxFold []

/-- Insertion step for a descending sort of rational values. -/
def insertDescQ (v : ℚ) : List ℚ → List ℚ
  | [] => [v]
  | x :: xs => if v < x then x :: insertDescQ v xs else v :: x :: xs

/-- Descending sort of rational values. -/
def sortDescQ : List ℚ → List ℚ
  | [] => []
  | x :: xs => insertDescQ x (sortDescQ xs)

/-- Modelled from the spec: the up-to-3 largest distinct-day maxima of
in-month consumption, each day contributing only its maximum hour. -/
def top3DayValues (lst : List RawHour) (now : Int) : List ℚ :=
  (sortDescQ ((dayMaxima lst now).map (fun p => p.2))).take 3

/-- Modelled from the spec: the peak-consumption metric — the
arithmetic mean of the up-to-3 largest distinct-day maxima, absent
when there is none. -/
def specPeak (lst : List RawHour) (now : Int) : Option ℚ :=
  let t := top3DayValues lst now
  if t.isEmpty then none else some (t.sum / t.length)

/-! ## Helper lemmas: ledger deduplication -/

/-- Inserting a timestamp already present leaves the set unchanged. -/
lemma setAdd_eq_of_mem {s : List Consumption} {c x : Consumption}
    (hx : x ∈ s) (ht : x.timestamp = c.timestamp) : setAdd s c = s := by
  unfold setAdd
  rw [if_pos]
  exact List.any_eq_true.mpr ⟨x, hx, by simp [ht]⟩

/-- `set.add` preserves timestamp-distinctness. -/
lemma tsNodup_setAdd {s : List Consumption} (c : Consumption)
    (h : tsNodup s) : tsNodup (setAdd s c) := by
  unfold setAdd
  split
  · exact h
  · rename_i hany
    have hall : ∀ x ∈ s, x.timestamp ≠ c.timestamp := by
      intro x hx hcontra
      exact hany (List.any_eq_true.mpr ⟨x, hx, by simp [hcontra]⟩)
    refine List.pairwise_append.mpr ⟨h, List.pairwise_singleton _ _, ?_⟩
    intro a ha b hb
    simp only [List.mem_singleton] at hb
    subst hb
    exact hall a ha

/-- The consumption loop preserves timestamp-distinctness of the ledger. -/
lemma tsNodup_peakLoop (now : Int) :
    ∀ (lst : List RawHour) (st : LoopState),
      tsNodup st.mc → tsNodup (lst.foldl (peakStep now) st).mc := by
  intro lst
  induction lst with
  | nil => intro st h; exact h
  | cons hd tl ih =>
    intro st h
    refine ih _ ?_
    unfold peakStep
    cases hd.consumption with
    | none => exact h
    | some v =>
      simp only []
      split
      · exact tsNodup_setAdd _ h
      · exact h

/-- The price loop preserves timestamp-distinctness of the ledger. -/
lemma tsNodup_priceFold (now : Int) :
    ∀ (pt : List (Int × ℚ)) (acc : List Consumption × Bool),
      tsNodup acc.1 → tsNodup (pt.foldl
        (fun acc kv =>
          let tom := acc.2 || decide (dateOf kv.1 = dateOf now + 1)
          if sameMonth kv.1 now then
            (setAdd acc.1 ⟨kv.1, none, some kv.2, none⟩, tom)
          else (acc.1, tom)) acc).1 := by
  intro pt
  induction pt with
  | nil => intro acc h; exact h
  | cons hd tl ih =>
    intro acc h
    refine ih _ ?_
    simp only []
    split
    · exact tsNodup_setAdd _ h
    · exact h

/-- The stashed month ledger never holds two records with one timestamp. -/
lemma tsNodup_monthLedger (lst : List RawHour) (pt : List (Int × ℚ)) (now : Int) :
    tsNodup (monthLedger lst pt now).1 := by
  unfold monthLedger priceFold loopResult
  exact tsNodup_priceFold now pt _ (tsNodup_peakLoop now lst _ List.Pairwise.nil)

/-! ## Claim C3 -/

/-- C3 counterexample: inserting a price-only record for an hour
already represented by a consumption-bearing record does NOT replace
it — Python `set.add` keeps the earlier record and drops the new one,
so the ledger's sole record for that timestamp is the original, not
the newly inserted one. -/
theorem ledger_insert_overwrite_counterexample :
    setAdd [⟨0, some 5, none, some 2⟩] ⟨0, none, some 1, none⟩
      = [⟨0, some 5, none, some 2⟩]
    ∧ (⟨0, none, some 1, none⟩ : Consumption) ∉
        setAdd [⟨0, some 5, none, some 2⟩] ⟨0, none, some 1, none⟩ := by
  decide

/-- C3 (amended): inserting a record whose timestamp is already present
leaves the ledger unchanged — the earlier record wins and the new
record is dropped — so exactly the original record carries that
timestamp; the insert preserves the no-duplicate-timestamp invariant,
and after any merge pass the stashed month ledger has no two records
sharing a timestamp. -/
theorem ledger_insert_keeps_existing (s : List Consumption) (c x : Consumption) :
    (x ∈ s → x.timestamp = c.timestamp → setAdd s c = s)
    ∧ (tsNodup s → tsNodup (setAdd s c))
    ∧ ∀ (lst : List RawHour) (pt : List (Int × ℚ)) (now : Int),
        tsNodup (monthLedger lst pt now).1 := by
  exact ⟨fun hx ht => setAdd_eq_of_mem hx ht,
         fun h => tsNodup_setAdd c h,
         fun lst pt now => tsNodup_monthLedger lst pt now⟩

/-- C3 witness: a concrete duplicate-timestamp insert is a no-op on a
deduplicated ledger. -/
theorem ledger_insert_keeps_existing_witness :
    setAdd [⟨0, some 5, none, some 2⟩] ⟨0, none, some 1, none⟩
      = [⟨0, some 5, none, some 2⟩]
    ∧ tsNodup (setAdd [⟨0, some 5, none, some 2⟩] ⟨0, none, some 1, none⟩) := by
  refine ⟨(ledger_insert_keeps_existing [⟨0, some 5, none, some 2⟩]
      ⟨0, none, some 1, none⟩ ⟨0, some 5, none, some 2⟩).1 (by decide) (by decide),
    (ledger_insert_keeps_existing [⟨0, some 5, none, some 2⟩]
      ⟨0, none, some 1, none⟩ ⟨0, some 5, none, some 2⟩).2.1 (by decide)⟩

/-! ## Claim C2 -/

/-- C2: over a ledger whose relevant subsets are empty, the aggregate
step does not produce unset metrics — it raises `ZeroDivisionError`
(at `total_price / n_price`) and leaves every metric key unwritten.
This contradicts the spec, which requires empty denominators to yield
absent metrics; the spec is the stated intent, the code the slip. -/
theorem aggregates_empty_ledger_raises (now : Int) (d : DataState) :
    computeAggregates [] now d = (d, some PyErr.zeroDivision) := by
  rfl

/-! ## Claim C7 -/

/-- C7: `Consumption` ordering — with known unequal consumptions the
higher-consumption record is the greater regardless of timestamps; a
record with unknown consumption is below any record with known
consumption; with both unknown the order is by timestamp. -/
theorem consumption_ordering (a b : Consumption) (x y : ℚ) :
    (a.cons = some x → b.cons = some y → y < x →
       consGT a b = true ∧ consLT a b = false)
    ∧ (a.cons = none → b.cons = some y →
       consLT a b = true ∧ consLT b a = false)
    ∧ (a.cons = none → b.cons = none →
       consLT a b = decide (a.timestamp < b.timestamp)) := by
  refine ⟨?_, ?_, ?_⟩
  · intro h1 h2 h3
    constructor
    · simp [consGT, consLT, h1, h2, h3]
    · simp [consLT, h1, h2, not_lt.mpr (le_of_lt h3)]
  · intro h1 h2
    constructor
    · simp [consLT, h1, h2]
    · simp [consLT, h1, h2]
  · intro h1 h2
    simp [consLT, h1, h2]

/-- C7 witness: concrete records with consumption 5 (early timestamp)
vs 3 (late timestamp), an unknown-consumption record, and two
unknown-consumption records ordered by timestamp. -/
theorem consumption_ordering_witness :
    (consGT ⟨0, some 5, none, none⟩ ⟨99, some 3, none, none⟩ = true
      ∧ consLT ⟨0, some 5, none, none⟩ ⟨99, some 3, none, none⟩ = false)
    ∧ (consLT ⟨99, none, none, none⟩ ⟨0, some 3, none, none⟩ = true
      ∧ consLT ⟨0, some 3, none, none⟩ ⟨99, none, none, none⟩ = false)
    ∧ consLT ⟨0, none, none, none⟩ ⟨99, none, none, none⟩
        = decide ((0 : Int) < 99) := by
  refine ⟨(consumption_ordering ⟨0, some 5, none, none⟩ ⟨99, some 3, none, none⟩
      5 3).1 rfl rfl (by norm_num),
    ?_,
    (consumption_ordering ⟨0, none, none, none⟩ ⟨99, none, none, none⟩
      0 0).2.2 rfl rfl⟩
  exact (consumption_ordering ⟨99, none, none, none⟩ ⟨0, some 3, none, none⟩
      0 3).2.1 rfl rfl

/-! ## Claim C10 -/

/-- C10: when the snapshot has no `est_subsidy`, the
`est_current_price_with_subsidy` sensor computes the live price minus
0 (the missing subsidy is silently treated as zero via
`data.get("est_subsidy", 0)`), and the published value is present, not
absent. -/
theorem missing_subsidy_treated_as_zero (d : DataState) (p : ℚ) (now : Int)
    (h : d.est_subsidy = none) :
    computeNativeValue .est_current_price_with_subsidy d (some p) now
      = .ok (some (p - 0))
    ∧ ∃ q, handleCoordinatorUpdate .est_current_price_with_subsidy d (some p) now
      = .ok (some q) := by
  constructor
  · simp [computeNativeValue, h]
  · by_cases hp : p = 0
    · exact ⟨p - 0, by
        simp [handleCoordinatorUpdate, computeNativeValue, h, publishRound,
          Except.map, sub_zero, hp]⟩
    · exact ⟨pyRound2 (p - 0), by
        simp [handleCoordinatorUpdate, computeNativeValue, h, publishRound,
          Except.map, sub_zero, hp]⟩

/-- C10 witness: an empty snapshot and live price 3 publish 3 − 0. -/
theorem missing_subsidy_treated_as_zero_witness :
    computeNativeValue .est_current_price_with_subsidy {} (some 3) 0
      = .ok (some ((3 : ℚ) - 0))
    ∧ ∃ q, handleCoordinatorUpdate .est_current_price_with_subsidy {} (some 3) 0
      = .ok (some q) :=
  missing_subsidy_treated_as_zero {} 3 0 rfl

/-! ## Claim C9 -/

/-- C9: the presentation-layer update CAN raise — with a snapshot whose
grid-price map lacks the current hour, `total_price_with_subsidy`
evaluates `None + livePrice - …` and a `TypeError` escapes the
callback instead of an absent value.  The spec states the intent
(absent values, never exceptions); the code is the slip. -/
theorem presentation_missing_grid_price_raises :
    handleCoordinatorUpdate .total_price_with_subsidy
      { grid_price := some [(0, 5)] } (some 1) 7230
      = .error .typeError := by
  rfl

/-! ## Claim C5 -/

/-- C5: the secondary fetcher — on any fetch failure the cached token
is discarded and next-due is now + 2 minutes; on success next-due is
today at 15:00 when the local hour is before 15 and tomorrow at 00:00
otherwise, the token being kept; a success during hour 14 yields the
same day at 15:00. -/
theorem grid_fetcher_schedule (env : Env) (t : Nat) (d : DataState) (now : Int)
    (entries : Option (List (Int × ℚ))) :
    (env.gridFetch = .error () →
       getDataTibber env (some t) d now = (none, d, now + 120))
    ∧ (env.gridFetch = .ok entries →
       ((getDataTibber env (some t) d now).2.2
           = (if hourOf now < 15 then todayAt15 now else tomorrowAt0 now)
        ∧ (getDataTibber env (some t) d now).1 = some t
        ∧ (hourOf now = 14 →
             dateOf ((getDataTibber env (some t) d now).2.2) = dateOf now
             ∧ hourOf ((getDataTibber env (some t) d now).2.2) = 15))) := by
  constructor
  · intro hf
    simp [getDataTibber, tibberAfterAuth, hf]
  · intro hf
    have hnext : (getDataTibber env (some t) d now).2.2
        = (if hourOf now < 15 then todayAt15 now else tomorrowAt0 now) := by
      simp only [getDataTibber, tibberAfterAuth, hf]
    refine ⟨hnext, ?_, ?_⟩
    · simp only [getDataTibber, tibberAfterAuth, hf]
    · intro h14
      rw [hnext, if_pos (by rw [h14]; norm_num)]
      constructor
      · show dateOf (todayAt15 now) = dateOf now
        unfold todayAt15 dateOf
        omega
      · show hourOf (todayAt15 now) = 15
        unfold todayAt15 hourOf dateOf
        omega

/-- C5 witness: a failing fetch at time 1000 discards the token and
backs off 2 minutes; a successful fetch at 14:01 local (t = 50460)
schedules the same day at 15:00. -/
theorem grid_fetcher_schedule_witness :
    getDataTibber ⟨Except.error (), false, [], none, Except.error ()⟩
      (some 7) {} 1000 = (none, {}, 1000 + 120)
    ∧ dateOf ((getDataTibber ⟨Except.error (), false, [], none, Except.ok none⟩
        (some 7) {} 50460).2.2) = dateOf 50460
    ∧ hourOf ((getDataTibber ⟨Except.error (), false, [], none, Except.ok none⟩
        (some 7) {} 50460).2.2) = 15 := by
  refine ⟨(grid_fetcher_schedule ⟨Except.error (), false, [], none, Except.error ()⟩
      7 {} 1000 none).1 rfl, ?_⟩
  exact ((grid_fetcher_schedule ⟨Except.error (), false, [], none, Except.ok none⟩
      7 {} 50460 none).2 rfl).2.2 (by decide)

/-! ## Claim C8 -/

/-- C8: whenever the aggregate step returns, the cost-with-subsidy
metrics satisfy `totalCost − estSubsidy × totalConsumption`, where the
totals range over the records with both cost and consumption known
(whole month for the monthly metric, today for the daily one). -/
theorem cost_with_subsidy_formula (L : List Consumption) (now : Int)
    (d : DataState) (h : (computeAggregates L now d).2 = none) :
    ∃ es, (computeAggregates L now d).1.est_subsidy = some es
      ∧ (computeAggregates L now d).1.monthly_cost_with_subsidy
          = some ((computeTotals L now).tc - es * (computeTotals L now).tcons)
      ∧ (computeAggregates L now d).1.daily_cost_with_subsidy
          = some ((computeTotals L now).tcd - es * (computeTotals L now).tconsd) := by
  by_cases h1 : (computeTotals L now).np = 0
  · exfalso; simp [computeAggregates, h1] at h
  by_cases h2 : (computeTotals L now).np0 = 0
  · exfalso; simp [computeAggregates, h1, h2] at h
  by_cases h3 : (computeTotals L now).tcons = 0
  · exfalso; simp [computeAggregates, h1, h2, h3] at h
  refine ⟨((computeTotals L now).tp0 / (computeTotals L now).np0 - 7 / 8) * (9 / 10),
    ?_, ?_, ?_⟩ <;>
    simp [computeAggregates, h1, h2, h3]

/-- C8 witness: one record with cost 100, consumption 50 and unit
price 79/72 makes `est_subsidy` = 1/5 and
`monthly_cost_with_subsidy` = 100 − (1/5)·50 = 90. -/
theorem cost_with_subsidy_formula_witness :
    (computeAggregates [⟨3456000, some 50, some (79 / 72), some 100⟩]
        3456000 {}).2 = none
    ∧ (∃ es, (computeAggregates [⟨3456000, some 50, some (79 / 72), some 100⟩]
          3456000 {}).1.est_subsidy = some es
        ∧ (computeAggregates [⟨3456000, some 50, some (79 / 72), some 100⟩]
            3456000 {}).1.monthly_cost_with_subsidy
          = some ((computeTotals [⟨3456000, some 50, some (79 / 72), some 100⟩]
              3456000).tc
              - es * (computeTotals [⟨3456000, some 50, some (79 / 72), some 100⟩]
                  3456000).tcons))
    ∧ (computeAggregates [⟨3456000, some 50, some (79 / 72), some 100⟩]
        3456000 {}).1.monthly_cost_with_subsidy = some 90 := by
  refine ⟨by norm_num [computeAggregates, computeTotals, totalsStep, truthyPrice,
      priceOrZero, dayOfC, dateOf], ?_,
    by norm_num [computeAggregates, computeTotals, totalsStep, truthyPrice,
      priceOrZero, dayOfC, dateOf]⟩
  obtain ⟨es, h1, h2, h3⟩ :=
    cost_with_subsidy_formula [⟨3456000, some 50, some (79 / 72), some 100⟩]
      3456000 {}
      (by norm_num [computeAggregates, computeTotals, totalsStep, truthyPrice,
        priceOrZero, dayOfC, dateOf])
  exact ⟨es, h1, h2⟩

/-! ## Claim C1 -/

/-- C1 counterexample: with the primary fetch raising, the tick does
NOT swallow the error — `_async_update_data` propagates it (the tick
aborts) and the fetcher's next-due entry is left where it was, not
advanced by any interval. -/
theorem primary_failure_counterexample :
    (asyncUpdateData ⟨Except.error (), false, [], none, Except.error ()⟩
        ⟨{}, [], 0, none, none⟩ 5).2 = some PyErr.fetchError
    ∧ (asyncUpdateData ⟨Except.error (), false, [], none, Except.error ()⟩
        ⟨{}, [], 0, none, none⟩ 5).1 = ⟨{}, [], 0, none, none⟩ := by
  decide

/-- C1 (amended): an exception in the primary fetcher's fetch step is
not caught anywhere in the coordinator: it propagates out of
`_async_update_data`, aborting the tick (any remaining fetcher is
skipped).  The ledger, the `data` dict and the fetcher's next-due
entry are all left exactly as they were — the next-due is NOT
reassigned, so the fetcher is simply due again at the next tick; after
two consecutive fetch failures the coordinator state is unchanged. -/
theorem primary_failure_propagates (env : Env) (st : CoordState)
    (now now2 : Int) (hf : env.consData = .error ())
    (h1 : st.nextDueGet ≤ now) (h2 : st.nextDueGet ≤ now2) :
    asyncUpdateData env st now = (st, some PyErr.fetchError)
    ∧ asyncUpdateData env (asyncUpdateData env st now).1 now2
        = (st, some PyErr.fetchError) := by
  have key : ∀ t, st.nextDueGet ≤ t →
      asyncUpdateData env st t = (st, some PyErr.fetchError) := by
    intro t ht
    unfold asyncUpdateData
    rw [if_pos ht, hf]
    rfl
  refine ⟨key now h1, ?_⟩
  rw [key now h1]
  exact key now2 h2

/-- C1 witness: two consecutive failing ticks on a concrete state. -/
theorem primary_failure_propagates_witness :
    asyncUpdateData ⟨Except.error (), false, [], none, Except.error ()⟩
      ⟨{}, [], 0, none, none⟩ 5 = (⟨{}, [], 0, none, none⟩, some PyErr.fetchError)
    ∧ asyncUpdateData ⟨Except.error (), false, [], none, Except.error ()⟩
        (asyncUpdateData ⟨Except.error (), false, [], none, Except.error ()⟩
          ⟨{}, [], 0, none, none⟩ 5).1 6
      = (⟨{}, [], 0, none, none⟩, some PyErr.fetchError) :=
  primary_failure_propagates ⟨Except.error (), false, [], none, Except.error ()⟩
    ⟨{}, [], 0, none, none⟩ 5 6 rfl (by decide) (by decide)

/-! ## Claim C4 -/

/-- C4: on every successful primary-fetcher run the returned next-due
equals the minimum of the availability-driven base value and the
price-publication cap. -/
theorem next_due_is_min_of_base_and_cap (lst : List RawHour) (hasRT : Bool)
    (pt : List (Int × ℚ)) (d : DataState) (s : List Consumption) (now : Int)
    (h : (getData (.ok lst) hasRT pt d s now).err = none) :
    (getData (.ok lst) hasRT pt d s now).next
      = some (min (specBaseNext hasRT (todayAvail lst now) (yestAvail lst now) now)
                  (specCapNext (tomorrowPricesAvail lst pt now) now)) := by
  unfold getData at h ⊢
  simp only at h ⊢
  split at h
  · simp at h
  · rename_i d2 hagg
    simp only [specBaseNext, specCapNext, todayAvail, yestAvail,
      tomorrowPricesAvail, monthLedger]
    split_ifs <;> rfl

/-- C4 witness: a concrete successful run (one in-month record, no
real-time metering, no published prices) returns the min of base and
cap. -/
theorem next_due_is_min_of_base_and_cap_witness :
    (getData (.ok [⟨3456000, some 50, some 2, some 100⟩]) false [] {} []
        3456000).err = none
    ∧ (getData (.ok [⟨3456000, some 50, some 2, some 100⟩]) false [] {} []
        3456000).next
      = some (min (specBaseNext false
            (todayAvail [⟨3456000, some 50, some 2, some 100⟩] 3456000)
            (yestAvail [⟨3456000, some 50, some 2, some 100⟩] 3456000) 3456000)
          (specCapNext
            (tomorrowPricesAvail [⟨3456000, some 50, some 2, some 100⟩] []
              3456000) 3456000)) :=
  have herr : (getData (.ok [⟨3456000, some 50, some 2, some 100⟩]) false [] {}
      [] 3456000).err = none := by
    norm_num [getData, loopResult, peakStep, updMax, sameDayScan, sortDescC,
      insertDesc, setAdd, priceFold, computeAggregates, computeTotals,
      totalsStep, truthyPrice, priceOrZero, sameMonth, monthOf, yearOf,
      civilFromDays, dateOf, dayOfC, consGT, consLT, valOf]
  ⟨herr,
   next_due_is_min_of_base_and_cap [⟨3456000, some 50, some 2, some 100⟩]
     false [] {} [] 3456000 herr⟩

/-! ## Peak-tracker correctness: ordering and sorting lemmas -/

lemma valOf_eq {c : Consumption} {x : ℚ} (h : c.cons = some x) : valOf c = x := by
  simp [valOf, h]

lemma consLT_known {a b : Consumption} {x y : ℚ} (ha : a.cons = some x)
    (hb : b.cons = some y) : consLT a b = decide (x < y) := by
  simp [consLT, ha, hb]

lemma consGT_known {a b : Consumption} {x y : ℚ} (ha : a.cons = some x)
    (hb : b.cons = some y) : consGT a b = decide (y < x) := by
  simp [consGT, consLT, ha, hb]

lemma insertDescQ_perm (v : ℚ) (l : List ℚ) :
    (insertDescQ v l).Perm (v :: l) := by
  induction l with
  | nil => rfl
  | cons x xs ih =>
    unfold insertDescQ
    split
    · exact (ih.cons x).trans (List.Perm.swap v x xs)
    · rfl

lemma sortDescQ_perm (l : List ℚ) : (sortDescQ l).Perm l := by
  induction l with
  | nil => rfl
  | cons x xs ih => exact (insertDescQ_perm x (sortDescQ xs)).trans (ih.cons x)

lemma insertDescQ_sorted (v : ℚ) {l : List ℚ}
    (h : List.Sorted (· ≥ ·) l) : List.Sorted (· ≥ ·) (insertDescQ v l) := by
  induction l with
  | nil => simp [insertDescQ]
  | cons x xs ih =>
    unfold insertDescQ
    rw [List.sorted_cons] at h
    split
    · rename_i hvx
      rw [List.sorted_cons]
      refine ⟨?_, ih h.2⟩
      intro b hb
      rcases List.mem_cons.mp ((insertDescQ_perm v xs).mem_iff.mp hb) with rfl | hb
      · exact le_of_lt hvx
      · exact h.1 b hb
    · rename_i hvx
      push_neg at hvx
      rw [List.sorted_cons]
      refine ⟨?_, List.sorted_cons.mpr h⟩
      intro b hb
      rcases List.mem_cons.mp hb with hb | hb
      · subst hb; exact hvx
      · exact le_trans (h.1 b hb) hvx

lemma sortDescQ_sorted (l : List ℚ) : List.Sorted (· ≥ ·) (sortDescQ l) := by
  induction l with
  | nil => simp [sortDescQ]
  | cons x xs ih => exact insertDescQ_sorted x ih

lemma sortDescQ_eq_of_sorted {l : List ℚ} (h : List.Sorted (· ≥ ·) l) :
    sortDescQ l = l :=
  List.eq_of_perm_of_sorted (sortDescQ_perm l) (sortDescQ_sorted l) h

lemma insertDesc_perm (c : Consumption) (l : List Consumption) :
    (insertDesc c l).Perm (c :: l) := by
  induction l with
  | nil => rfl
  | cons x xs ih =>
    unfold insertDesc
    split
    · exact (ih.cons x).trans (List.Perm.swap c x xs)
    · rfl

lemma sortDescC_perm (l : List Consumption) : (sortDescC l).Perm l := by
  induction l with
  | nil => rfl
  | cons x xs ih => exact (insertDesc_perm x (sortDescC xs)).trans (ih.cons x)

lemma insertDesc_sorted_vals {c : Consumption} {l : List Consumption}
    (hc : c.cons = some (valOf c)) (hl : ∀ y ∈ l, y.cons = some (valOf y))
    (hs : List.Sorted (· ≥ ·) (l.map valOf)) :
    List.Sorted (· ≥ ·) ((insertDesc c l).map valOf) := by
  induction l with
  | nil => simp [insertDesc]
  | cons x xs ih =>
    unfold insertDesc
    rw [List.map_cons, List.sorted_cons] at hs
    rw [consLT_known hc (hl x (List.mem_cons_self x xs))]
    split
    · rename_i hvx
      rw [decide_eq_true_eq] at hvx
      rw [List.map_cons, List.sorted_cons]
      refine ⟨?_, ih (fun y hy => hl y (List.mem_cons_of_mem x hy)) hs.2⟩
      intro b hb
      rw [List.mem_map] at hb
      obtain ⟨y, hy, rfl⟩ := hb
      rcases List.mem_cons.mp ((insertDesc_perm c xs).mem_iff.mp hy) with rfl | hy
      · exact le_of_lt hvx
      · exact hs.1 (valOf y) (List.mem_map_of_mem valOf hy)
    · rename_i hvx
      rw [decide_eq_true_eq] at hvx
      push_neg at hvx
      rw [List.map_cons, List.map_cons, List.sorted_cons]
      refine ⟨?_, List.sorted_cons.mpr hs⟩
      intro b hb
      rcases List.mem_cons.mp hb with hb | hb
      · subst hb; exact hvx
      · exact le_trans (hs.1 b hb) hvx

lemma sortDescC_sorted_vals {l : List Consumption}
    (hl : ∀ y ∈ l, y.cons = some (valOf y)) :
    List.Sorted (· ≥ ·) ((sortDescC l).map valOf) := by
  induction l with
  | nil => simp [sortDescC]
  | cons x xs ih =>
    refine insertDesc_sorted_vals (hl x (List.mem_cons_self x xs)) ?_
      (ih (fun y hy => hl y (List.mem_cons_of_mem x hy)))
    intro y hy
    exact hl y (List.mem_cons_of_mem x ((sortDescC_perm xs).mem_iff.mp hy))

lemma sorted_ge_last_le {l : List ℚ} (hs : List.Sorted (· ≥ ·) l) {a : ℚ}
    (ha : l.getLast? = some a) {b : ℚ} (hb : b ∈ l) : a ≤ b := by
  induction l with
  | nil => cases hb
  | cons x xs ih =>
    cases xs with
    | nil =>
      rw [List.getLast?_singleton] at ha
      rw [List.mem_singleton] at hb
      cases ha
      subst hb
      exact le_refl b
    | cons y ys =>
      rw [List.getLast?_cons_cons] at ha
      rw [List.sorted_cons] at hs
      rcases List.mem_cons.mp hb with hb | hb
      · subst hb
        obtain ⟨hne, ha2⟩ := List.mem_getLast?_eq_getLast
          (show a ∈ (y :: ys).getLast? from ha)
        rw [ha2]
        exact hs.1 _ (List.getLast_mem hne)
      · exact ih hs.2 ha hb

/-- The minimum of a sorted-descending tracker is its last element. -/
lemma sorted_last_min {mm : List Consumption}
    (hs : List.Sorted (· ≥ ·) (mm.map valOf)) {l : Consumption}
    (hl : mm.getLast? = some l) {x : Consumption} (hx : x ∈ mm) :
    valOf l ≤ valOf x := by
  refine sorted_ge_last_le hs ?_ (List.mem_map_of_mem valOf hx)
  rw [List.getLast?_map, hl]
  rfl

/-! ## Peak-tracker correctness: per-day-maximum table lemmas -/

lemma any_key_iff {M : List (Int × ℚ)} {k : Int} :
    (M.any (fun q => decide (q.1 = k))) = true ↔ k ∈ M.map Prod.fst := by
  rw [List.any_eq_true]
  constructor
  · rintro ⟨q, hq, he⟩
    rw [decide_eq_true_eq] at he
    exact List.mem_map.mpr ⟨q, hq, he⟩
  · intro h
    obtain ⟨q, hq, he⟩ := List.mem_map.mp h
    exact ⟨q, hq, by simp [he]⟩

lemma dictGet_eq_none_iff (M : List (Int × ℚ)) (d : Int) :
    dictGet M d = none ↔ d ∉ M.map Prod.fst := by
  unfold dictGet
  rw [Option.map_eq_none', List.find?_eq_none]
  constructor
  · intro h hmem
    rw [List.mem_map] at hmem
    obtain ⟨q, hq, hqd⟩ := hmem
    exact h q hq (by simp [hqd])
  · intro h q hq hpred
    rw [decide_eq_true_eq] at hpred
    exact h (List.mem_map.mpr ⟨q, hq, hpred⟩)

lemma dictGet_isSome_of_mem {M : List (Int × ℚ)} {k : Int}
    (h : k ∈ M.map Prod.fst) : ∃ w, dictGet M k = some w := by
  cases hg : dictGet M k with
  | none => exact absurd ((dictGet_eq_none_iff M k).mp hg) (by simp [h])
  | some w => exact ⟨w, rfl⟩

lemma dictGet_mem {M : List (Int × ℚ)} {d : Int} {w : ℚ}
    (h : dictGet M d = some w) : (d, w) ∈ M := by
  unfold dictGet at h
  obtain ⟨p, hfind, hw⟩ := Option.map_eq_some'.mp h
  have hpred := List.find?_some hfind
  rw [decide_eq_true_eq] at hpred
  have hmem := List.mem_of_find?_eq_some hfind
  obtain ⟨p1, p2⟩ := p
  simp only at hpred hw
  subst hpred
  subst hw
  exact hmem

lemma dictGet_of_mem_nodup {M : List (Int × ℚ)} (kND : (M.map Prod.fst).Nodup)
    {q : Int × ℚ} (h : q ∈ M) : dictGet M q.1 = some q.2 := by
  induction M with
  | nil => cases h
  | cons p M' ih =>
    rw [List.map_cons, List.nodup_cons] at kND
    rcases List.mem_cons.mp h with rfl | h
    · unfold dictGet
      rw [List.find?_cons_of_pos _ (by simp)]
      rfl
    · have hne : ¬ (p.1 = q.1) := by
        intro he
        exact kND.1 (he ▸ List.mem_map_of_mem Prod.fst h)
      unfold dictGet
      rw [List.find?_cons_of_neg _ (by simp [hne])]
      exact ih kND.2 h

lemma dictGet_append (M N : List (Int × ℚ)) (d : Int) :
    dictGet (M ++ N) d
      = match dictGet M d with
        | some w => some w
        | none => dictGet N d := by
  unfold dictGet
  rw [List.find?_append]
  cases hf : M.find? (fun p => decide (p.1 = d)) with
  | none => simp
  | some p => simp

lemma dayMaxFold_of_not_mem {M : List (Int × ℚ)} {p : Int × ℚ}
    (h : p.1 ∉ M.map Prod.fst) : dayMaxFold M p = M ++ [p] := by
  have hany : M.any (fun q => decide (q.1 = p.1)) = false := by
    rw [Bool.eq_false_iff]
    intro hc
    exact h (any_key_iff.mp hc)
  simp [dayMaxFold, hany]

lemma dayMaxFold_of_mem {M : List (Int × ℚ)} {p : Int × ℚ}
    (h : p.1 ∈ M.map Prod.fst) :
    dayMaxFold M p = M.map (fun q => if q.1 = p.1 then (q.1, max q.2 p.2) else q) := by
  simp [dayMaxFold, any_key_iff.mpr h]

lemma dayMaxFold_length (M : List (Int × ℚ)) (p : Int × ℚ) :
    M.length ≤ (dayMaxFold M p).length := by
  unfold dayMaxFold
  split <;> simp

lemma dayMaxFold_keys (M : List (Int × ℚ)) (p : Int × ℚ) :
    (dayMaxFold M p).map Prod.fst
      = if p.1 ∈ M.map Prod.fst then M.map Prod.fst
        else M.map Prod.fst ++ [p.1] := by
  by_cases h : p.1 ∈ M.map Prod.fst
  · rw [dayMaxFold_of_mem h, if_pos h, List.map_map]
    apply List.map_congr_left
    intro q hq
    by_cases hqq : q.1 = p.1 <;> simp [hqq]
  · rw [dayMaxFold_of_not_mem h, if_neg h]
    simp

lemma dayMaxFold_keys_nodup {M : List (Int × ℚ)} {p : Int × ℚ}
    (kND : (M.map Prod.fst).Nodup) :
    ((dayMaxFold M p).map Prod.fst).Nodup := by
  rw [dayMaxFold_keys]
  split
  · exact kND
  · rename_i hmem
    rw [List.nodup_append]
    exact ⟨kND, List.nodup_singleton _, by simpa using hmem⟩

lemma dictGet_map_update (M : List (Int × ℚ)) (p : Int × ℚ) (d : Int) :
    dictGet (M.map (fun q => if q.1 = p.1 then (q.1, max q.2 p.2) else q)) d
      = if d = p.1 then (dictGet M d).map (fun w => max w p.2)
        else dictGet M d := by
  induction M with
  | nil => simp [dictGet]
  | cons q M' ih =>
    rw [List.map_cons]
    by_cases hqd : q.1 = d
    · unfold dictGet
      rw [List.find?_cons_of_pos _ (by
          simp only [decide_eq_true_eq]
          by_cases hqq : q.1 = p.1
          · rw [if_pos hqq]; exact hqd
          · rw [if_neg hqq]; exact hqd),
        List.find?_cons_of_pos _ (by simp [hqd])]
      by_cases hd : d = p.1
      · rw [if_pos hd]
        have hqq : q.1 = p.1 := hqd.trans hd
        simp [hqq]
      · rw [if_neg hd]
        have hqq : ¬ (q.1 = p.1) := fun hc => hd (hqd.symm.trans hc)
        simp [hqq]
    · unfold dictGet
      rw [List.find?_cons_of_neg _ (by
          simp only [decide_eq_true_eq]
          by_cases hqq : q.1 = p.1
          · rw [if_pos hqq]; exact hqd
          · rw [if_neg hqq]; exact hqd),
        List.find?_cons_of_neg _ (by simp [hqd])]
      exact ih

lemma dictGet_dayMaxFold_self (M : List (Int × ℚ)) (p : Int × ℚ) :
    dictGet (dayMaxFold M p) p.1
      = some (match dictGet M p.1 with
              | some w => max w p.2
              | none => p.2) := by
  by_cases h : p.1 ∈ M.map Prod.fst
  · rw [dayMaxFold_of_mem h, dictGet_map_update, if_pos rfl]
    obtain ⟨w, hw⟩ := dictGet_isSome_of_mem h
    rw [hw]
    rfl
  · rw [dayMaxFold_of_not_mem h, dictGet_append,
      (dictGet_eq_none_iff M p.1).mpr h]
    unfold dictGet
    rw [List.find?_cons_of_pos _ (by simp)]
    rfl

lemma dictGet_dayMaxFold_ne (M : List (Int × ℚ)) (p : Int × ℚ) {d : Int}
    (h : d ≠ p.1) : dictGet (dayMaxFold M p) d = dictGet M d := by
  by_cases hm : p.1 ∈ M.map Prod.fst
  · rw [dayMaxFold_of_mem hm, dictGet_map_update, if_neg h]
  · rw [dayMaxFold_of_not_mem hm, dictGet_append]
    cases hg : dictGet M d with
    | some w => rfl
    | none =>
      unfold dictGet
      rw [List.find?_cons_of_neg _
        (by simp only [decide_eq_true_eq]; exact fun hc => h hc.symm)]
      rfl

/-! ## Peak-tracker correctness: same-day scan and selection lemmas -/

lemma sameDayScan_not_found {mm : List Consumption} {c : Consumption}
    (h : ∀ x ∈ mm, dayOfC x ≠ dayOfC c) : sameDayScan mm c = (mm, false) := by
  induction mm with
  | nil => rfl
  | cons x xs ih =>
    unfold sameDayScan
    rw [if_neg (h x (List.mem_cons_self x xs))]
    rw [ih (fun y hy => h y (List.mem_cons_of_mem x hy))]

lemma sameDayScan_false_no_match {mm : List Consumption} {c : Consumption}
    (h : (sameDayScan mm c).2 = false) : ∀ x ∈ mm, dayOfC x ≠ dayOfC c := by
  induction mm with
  | nil => intro x hx; cases hx
  | cons x xs ih =>
    unfold sameDayScan at h
    by_cases hd : dayOfC x = dayOfC c
    · rw [if_pos hd] at h
      by_cases hg : consGT c x = true
      · rw [if_pos hg] at h; cases h
      · rw [if_neg hg] at h; cases h
    · rw [if_neg hd] at h
      intro y hy
      rcases List.mem_cons.mp hy with rfl | hy
      · exact hd
      · exact ih h y hy

lemma sameDayScan_found {mm : List Consumption} {c : Consumption}
    (h : (sameDayScan mm c).2 = true) :
    ∃ pre x post, mm = pre ++ x :: post ∧ dayOfC x = dayOfC c
      ∧ (sameDayScan mm c).1
          = pre ++ (if consGT c x then c else x) :: post := by
  induction mm with
  | nil => cases h
  | cons x xs ih =>
    by_cases hd : dayOfC x = dayOfC c
    · refine ⟨[], x, xs, rfl, hd, ?_⟩
      unfold sameDayScan
      rw [if_pos hd]
      by_cases hg : consGT c x = true
      · rw [if_pos hg]; simp [hg]
      · rw [if_neg hg]
        simp only [Bool.not_eq_true] at hg
        simp [hg]
    · unfold sameDayScan at h
      rw [if_neg hd] at h
      obtain ⟨pre, y, post, he, hy, hres⟩ := ih h
      refine ⟨x :: pre, y, post, by rw [he]; rfl, hy, ?_⟩
      unfold sameDayScan
      rw [if_neg hd]
      simp only [List.cons_append, List.cons.injEq, true_and]
      exact hres

/-- When the tracker is not full, its days exhaust the table's keys. -/
lemma keys_eq_days {mm : List Consumption} {M : List (Int × ℚ)}
    (kND : (M.map Prod.fst).Nodup) (dND : (mm.map dayOfC).Nodup)
    (inM : ∀ c ∈ mm, dictGet M (dayOfC c) = some (valOf c))
    (hlen : M.length = mm.length) :
    ∀ k, k ∈ M.map Prod.fst ↔ k ∈ mm.map dayOfC := by
  have hsub : mm.map dayOfC ⊆ M.map Prod.fst := by
    intro k hk
    obtain ⟨c, hc, rfl⟩ := List.mem_map.mp hk
    exact List.mem_map.mpr ⟨(dayOfC c, valOf c), dictGet_mem (inM c hc), rfl⟩
  have hperm : (mm.map dayOfC).Perm (M.map Prod.fst) :=
    (List.subperm_of_subset dND hsub).perm_of_length_le
      (by simp [hlen])
  intro k
  exact (hperm.mem_iff).symm

lemma filter_or_perm {α : Type} (l : List α) (p q : α → Bool)
    (h : ∀ x ∈ l, ¬(p x = true ∧ q x = true)) :
    (l.filter (fun x => p x || q x)).Perm (l.filter p ++ l.filter q) := by
  induction l with
  | nil => rfl
  | cons x xs ih =>
    have ih2 := ih (fun y hy => h y (List.mem_cons_of_mem x hy))
    cases hp : p x <;> cases hq : q x
    · simp only [List.filter_cons, hp, hq]
      simpa using ih2
    · simp only [List.filter_cons, hp, hq]
      simp only [Bool.false_or, if_true, Bool.false_eq_true, if_false]
      exact (ih2.cons x).trans List.perm_middle.symm
    · simp only [List.filter_cons, hp, hq]
      simp only [Bool.true_or, if_true, Bool.false_eq_true, if_false]
      exact ih2.cons x
    · exact absurd ⟨hp, hq⟩ (h x (List.mem_cons_self x xs))

lemma filter_eq_key_single {M : List (Int × ℚ)}
    (kND : (M.map Prod.fst).Nodup) {d : Int} {w : ℚ}
    (hl : dictGet M d = some w) :
    M.filter (fun p => decide (p.1 = d)) = [(d, w)] := by
  induction M with
  | nil => cases hl
  | cons q M' ih =>
    rw [List.map_cons, List.nodup_cons] at kND
    by_cases hq : q.1 = d
    · have hval : q.2 = w := by
        unfold dictGet at hl
        rw [List.find?_cons_of_pos _ (by simp [hq])] at hl
        simpa using hl
      have hfilter : M'.filter (fun p => decide (p.1 = d)) = [] := by
        rw [List.filter_eq_nil]
        intro p hp
        simp only [decide_eq_true_eq]
        intro hpd
        exact kND.1 (by rw [hq, ← hpd]; exact List.mem_map_of_mem Prod.fst hp)
      rw [List.filter_cons, if_pos (by simp [hq]), hfilter]
      obtain ⟨q1, q2⟩ := q
      simp only at hq hval
      rw [hq, hval]
    · rw [List.filter_cons, if_neg (by simp [hq])]
      refine ih kND.2 ?_
      unfold dictGet at hl
      rw [List.find?_cons_of_neg _ (by simp [hq])] at hl
      exact hl

/-- The tracker's values are a perm of the table values over its days. -/
lemma keyed_perm : ∀ (mm : List Consumption) (M : List (Int × ℚ)),
    (M.map Prod.fst).Nodup → (mm.map dayOfC).Nodup →
    (∀ c ∈ mm, dictGet M (dayOfC c) = some (valOf c)) →
    ((M.filter (fun p => decide (p.1 ∈ mm.map dayOfC))).map Prod.snd).Perm
      (mm.map valOf) := by
  intro mm
  induction mm with
  | nil =>
    intro M kND dND inM
    simp
  | cons c mm' ih =>
    intro M kND dND inM
    rw [List.map_cons, List.nodup_cons] at dND
    have hsplit : ∀ p ∈ M,
        ¬((decide (p.1 = dayOfC c)) = true
          ∧ (decide (p.1 ∈ mm'.map dayOfC)) = true) := by
      intro p hp ⟨h1, h2⟩
      rw [decide_eq_true_eq] at h1 h2
      exact dND.1 (h1 ▸ h2)
    have hpredEq : (fun p : Int × ℚ => decide (p.1 ∈ (c :: mm').map dayOfC))
        = (fun p : Int × ℚ =>
            decide (p.1 = dayOfC c) || decide (p.1 ∈ mm'.map dayOfC)) := by
      funext p
      rw [List.map_cons]
      simp [List.mem_cons]
    rw [hpredEq]
    have h1 : M.filter (fun p => decide (p.1 = dayOfC c))
        = [(dayOfC c, valOf c)] :=
      filter_eq_key_single kND (inM c (List.mem_cons_self c mm'))
    have h2 := ih M kND dND.2
      (fun y hy => inM y (List.mem_cons_of_mem c hy))
    refine ((filter_or_perm M _ _ hsplit).map Prod.snd).trans ?_
    rw [List.map_append, h1, List.map_cons]
    simp only [List.map_cons, List.map_nil, List.singleton_append]
    exact h2.cons (valOf c)

/-- A sorted selection of the `min 3 |V|` largest values of `V` is the
first three of `V` sorted descending. -/
lemma take3_selection {s rest V : List ℚ}
    (hperm : V.Perm (s ++ rest))
    (hs : List.Sorted (· ≥ ·) s)
    (hlen : s.length = min 3 V.length)
    (hdom : ∀ x ∈ rest, ∀ y ∈ s, x ≤ y) :
    (sortDescQ V).take 3 = s := by
  have hsr : List.Sorted (· ≥ ·) (s ++ sortDescQ rest) := by
    rw [List.Sorted, List.pairwise_append]
    refine ⟨hs, sortDescQ_sorted rest, ?_⟩
    intro y hy x hx
    exact hdom x ((sortDescQ_perm rest).mem_iff.mp hx) y hy
  have hperm2 : (sortDescQ V).Perm (s ++ sortDescQ rest) :=
    (sortDescQ_perm V).trans
      (hperm.trans (List.Perm.append_left s (sortDescQ_perm rest).symm))
  have heq : sortDescQ V = s ++ sortDescQ rest :=
    List.eq_of_perm_of_sorted hperm2 (sortDescQ_sorted V) hsr
  rw [heq]
  rcases le_or_lt V.length 3 with hv | hv
  · have hs3 : s.length = V.length := by rw [hlen]; omega
    have hrest : rest = [] := by
      have := hperm.length_eq
      rw [List.length_append, hs3] at this
      have : rest.length = 0 := by omega
      exact List.length_eq_zero.mp this
    rw [hrest]
    simp only [sortDescQ, List.append_nil]
    exact List.take_of_length_le (by omega)
  · have hs3 : s.length = 3 := by rw [hlen]; omega
    rw [← hs3, List.take_left]

/-! ## Peak-tracker correctness: the streaming invariant -/

lemma mem_of_getLast?_eq {α : Type} {l : List α} {a : α}
    (h : l.getLast? = some a) : a ∈ l := by
  obtain ⟨hne, ha⟩ := List.mem_getLast?_eq_getLast (show a ∈ l.getLast? from h)
  rw [ha]
  exact List.getLast_mem hne

lemma sameDayScan_length (mm : List Consumption) (c : Consumption) :
    (sameDayScan mm c).1.length = mm.length := by
  induction mm with
  | nil => rfl
  | cons x xs ih =>
    unfold sameDayScan
    by_cases hd : dayOfC x = dayOfC c
    · rw [if_pos hd]
      by_cases hg : consGT c x = true
      · rw [if_pos hg]; rfl
      · rw [if_neg hg]
    · rw [if_neg hd]
      simp [ih]

lemma sortDescC_length (l : List Consumption) :
    (sortDescC l).length = l.length :=
  (sortDescC_perm l).length_eq

/-- Invariant tying the streaming `max_month` tracker to the table of
per-day maxima of the records processed so far. -/
structure PeakInv (mm : List Consumption) (M : List (Int × ℚ)) : Prop where
  known : ∀ c ∈ mm, c.cons = some (valOf c)
  sorted : List.Sorted (· ≥ ·) (mm.map valOf)
  daysND : (mm.map dayOfC).Nodup
  inM : ∀ c ∈ mm, dictGet M (dayOfC c) = some (valOf c)
  lenEq : mm.length = min 3 M.length
  dom : ∀ p ∈ M, p.1 ∉ mm.map dayOfC →
    ∀ l, mm.getLast? = some l → p.2 ≤ valOf l

lemma peakInv_nil : PeakInv [] [] := by
  refine ⟨?_, ?_, ?_, ?_, ?_, ?_⟩ <;> simp [dictGet]

lemma peakInv_len_le {mm : List Consumption} {M : List (Int × ℚ)}
    (inv : PeakInv mm M) : mm.length ≤ 3 := by
  rw [inv.lenEq]
  omega

lemma updMax_gate_false {mm : List Consumption} {c l : Consumption}
    (h3 : ¬ mm.length < 3) (hl : mm.getLast? = some l)
    (hg : consGT c l = false) : updMax mm c = mm := by
  simp only [updMax, hl]
  simp [decide_eq_false h3, hg]

lemma updMax_gate_true {mm : List Consumption} {c : Consumption}
    (hgate : mm.length < 3 ∨ ∃ l, mm.getLast? = some l ∧ consGT c l = true) :
    updMax mm c =
      (if 3 < (sortDescC (if (sameDayScan mm c).2 then (sameDayScan mm c).1
          else (sameDayScan mm c).1 ++ [c])).length
       then (sortDescC (if (sameDayScan mm c).2 then (sameDayScan mm c).1
          else (sameDayScan mm c).1 ++ [c])).dropLast
       else sortDescC (if (sameDayScan mm c).2 then (sameDayScan mm c).1
          else (sameDayScan mm c).1 ++ [c])) := by
  have hb : (decide (mm.length < 3) ||
      (match mm.getLast? with
       | some l => consGT c l
       | none => false)) = true := by
    rcases hgate with h | ⟨l, hl, hg⟩
    · simp [h]
    · rw [hl]
      simp [hg]
  simp only [updMax, hb, if_true]

/-- Step case: a full tracker rejects a record no greater than its
weakest entry; only the day-maximum table absorbs the value. -/
lemma peakInv_gate_false {mm : List Consumption} {M : List (Int × ℚ)}
    {c l : Consumption}
    (kND : (M.map Prod.fst).Nodup) (inv : PeakInv mm M)
    (hc : c.cons = some (valOf c))
    (h3 : ¬ mm.length < 3) (hl : mm.getLast? = some l)
    (hg : consGT c l = false) :
    PeakInv mm (dayMaxFold M (dayOfC c, valOf c)) := by
  have hlmem : l ∈ mm := mem_of_getLast?_eq hl
  have hlk : l.cons = some (valOf l) := inv.known l hlmem
  have hvl : valOf c ≤ valOf l := by
    have := consGT_known hc hlk
    rw [hg] at this
    have := this.symm
    rw [decide_eq_false_iff_not] at this
    exact not_lt.mp this
  have hmin : ∀ x ∈ mm, valOf l ≤ valOf x :=
    fun x hx => sorted_last_min inv.sorted hl hx
  have hM3 : 3 ≤ M.length := by
    have := inv.lenEq
    omega
  refine ⟨inv.known, inv.sorted, inv.daysND, ?_, ?_, ?_⟩
  · intro c' hc'
    by_cases hd : dayOfC c' = dayOfC c
    · rw [hd]
      rw [show dayOfC c = ((dayOfC c, valOf c) : Int × ℚ).1 from rfl,
        dictGet_dayMaxFold_self]
      have hMc : dictGet M (dayOfC c) = some (valOf c') := by
        rw [← hd]
        exact inv.inM c' hc'
      simp only [hMc]
      have : valOf c ≤ valOf c' := le_trans hvl (hmin c' hc')
      rw [max_eq_left this]
    · rw [dictGet_dayMaxFold_ne _ _ hd]
      exact inv.inM c' hc'
  · have := dayMaxFold_length M (dayOfC c, valOf c)
    have := inv.lenEq
    omega
  · intro p hp hnd l0 hl0
    rw [hl] at hl0
    cases hl0
    have hpv : dictGet (dayMaxFold M (dayOfC c, valOf c)) p.1 = some p.2 :=
      dictGet_of_mem_nodup (dayMaxFold_keys_nodup kND) hp
    by_cases hpd : p.1 = dayOfC c
    · rw [hpd] at hpv hnd
      rw [show dayOfC c = ((dayOfC c, valOf c) : Int × ℚ).1 from rfl,
        dictGet_dayMaxFold_self] at hpv
      cases hG : dictGet M (dayOfC c) with
      | some w =>
        rw [hG] at hpv
        simp only [Option.some.injEq] at hpv
        have hw : w ≤ valOf l :=
          inv.dom (dayOfC c, w) (dictGet_mem hG) hnd l hl
        rw [← hpv]
        exact max_le hw hvl
      | none =>
        rw [hG] at hpv
        simp only [Option.some.injEq] at hpv
        rw [← hpv]
        exact hvl
    · rw [dictGet_dayMaxFold_ne _ _ hpd] at hpv
      exact inv.dom (p.1, p.2) (dictGet_mem hpv) hnd l hl

/-- Step case: the tracker has a same-day entry `x`; it is replaced by
`x'` (the larger of `x` and the incoming record) and re-sorted. -/
lemma peakInv_replace {mm pre post : List Consumption} {M : List (Int × ℚ)}
    {c x x' : Consumption}
    (kND : (M.map Prod.fst).Nodup) (inv : PeakInv mm M)
    (hmm : mm = pre ++ x :: post)
    (hxd : dayOfC x = dayOfC c)
    (hx'day : dayOfC x' = dayOfC x)
    (hx'k : x'.cons = some (valOf x'))
    (hx'val : valOf x' = max (valOf x) (valOf c)) :
    PeakInv (sortDescC (pre ++ x' :: post))
      (dayMaxFold M (dayOfC c, valOf c)) := by
  have hxmem : x ∈ mm := by
    rw [hmm]
    exact List.mem_append_right pre (List.mem_cons_self x post)
  have hndays := inv.daysND
  rw [hmm] at hndays
  simp only [List.map_append, List.map_cons] at hndays
  rw [List.nodup_append] at hndays
  obtain ⟨hndpre, hndcons, hdisj⟩ := hndays
  rw [List.nodup_cons] at hndcons
  have hprene : ∀ y ∈ pre, dayOfC y ≠ dayOfC x := by
    intro y hy he
    refine hdisj (List.mem_map_of_mem dayOfC hy) ?_
    rw [he]
    exact List.mem_cons_self _ _
  have hpostne : ∀ y ∈ post, dayOfC y ≠ dayOfC x := by
    intro y hy he
    exact hndcons.1 (he ▸ List.mem_map_of_mem dayOfC hy)
  have hdays : (pre ++ x' :: post).map dayOfC = mm.map dayOfC := by
    rw [hmm]
    simp [hx'day]
  have hmem1 : ∀ y ∈ pre ++ x' :: post,
      y = x' ∨ (y ∈ mm ∧ dayOfC y ≠ dayOfC c) := by
    intro y hy
    rcases List.mem_append.mp hy with hy | hy
    · refine Or.inr ⟨by rw [hmm]; exact List.mem_append_left _ hy, ?_⟩
      rw [← hxd]
      exact hprene y hy
    · rcases List.mem_cons.mp hy with rfl | hy
      · exact Or.inl rfl
      · refine Or.inr ⟨by
          rw [hmm]
          exact List.mem_append_right _ (List.mem_cons_of_mem x hy), ?_⟩
        rw [← hxd]
        exact hpostne y hy
  have hknown1 : ∀ y ∈ pre ++ x' :: post, y.cons = some (valOf y) := by
    intro y hy
    rcases hmem1 y hy with rfl | ⟨hy2, _⟩
    · exact hx'k
    · exact inv.known y hy2
  have hperm1 : (sortDescC (pre ++ x' :: post)).Perm (pre ++ x' :: post) :=
    sortDescC_perm _
  have hx'mem : x' ∈ sortDescC (pre ++ x' :: post) :=
    hperm1.mem_iff.mpr (List.mem_append_right pre (List.mem_cons_self x' post))
  have hMd : dictGet M (dayOfC c) = some (valOf x) := by
    rw [← hxd]
    exact inv.inM x hxmem
  have hkeysd : dayOfC c ∈ M.map Prod.fst :=
    List.mem_map.mpr ⟨(dayOfC c, valOf x), dictGet_mem hMd, rfl⟩
  have hMlen : (dayMaxFold M (dayOfC c, valOf c)).length = M.length := by
    rw [dayMaxFold_of_mem hkeysd]
    simp
  have hMselfval : dictGet (dayMaxFold M (dayOfC c, valOf c)) (dayOfC c)
      = some (max (valOf x) (valOf c)) := by
    rw [show dayOfC c = ((dayOfC c, valOf c) : Int × ℚ).1 from rfl,
      dictGet_dayMaxFold_self]
    simp [hMd]
  have hmmne : mm ≠ [] := fun he => by
    rw [he] at hxmem
    cases hxmem
  obtain ⟨lOld, hlOld⟩ := Option.isSome_iff_exists.mp
    (List.getLast?_isSome.mpr hmmne)
  have hminOld : ∀ y ∈ mm, valOf lOld ≤ valOf y :=
    fun y hy => sorted_last_min inv.sorted hlOld hy
  have hbound1 : ∀ y ∈ pre ++ x' :: post, valOf lOld ≤ valOf y := by
    intro y hy
    rcases hmem1 y hy with rfl | ⟨hy2, _⟩
    · rw [hx'val]
      exact le_trans (hminOld x hxmem) (le_max_left _ _)
    · exact hminOld y hy2
  refine ⟨?_, sortDescC_sorted_vals hknown1, ?_, ?_, ?_, ?_⟩
  · intro y hy
    exact hknown1 y (hperm1.mem_iff.mp hy)
  · exact ((hperm1.map dayOfC).nodup_iff).mpr (hdays ▸ inv.daysND)
  · intro y hy
    rcases hmem1 y (hperm1.mem_iff.mp hy) with rfl | ⟨hy2, hyne⟩
    · rw [hx'day, hxd, hMselfval, hx'val]
    · rw [dictGet_dayMaxFold_ne _ _ hyne]
      exact inv.inM y hy2
  · rw [sortDescC_length, hMlen]
    have : (pre ++ x' :: post).length = mm.length := by
      rw [hmm]
      simp
    rw [this]
    exact inv.lenEq
  · intro p hp hnd l' hl'
    have hdin : dayOfC c ∈ (sortDescC (pre ++ x' :: post)).map dayOfC := by
      refine List.mem_map.mpr ⟨x', hx'mem, ?_⟩
      rw [hx'day, hxd]
    have hpne : p.1 ≠ dayOfC c := fun he => hnd (he ▸ hdin)
    have hpv : dictGet (dayMaxFold M (dayOfC c, valOf c)) p.1 = some p.2 :=
      dictGet_of_mem_nodup (dayMaxFold_keys_nodup kND) hp
    rw [dictGet_dayMaxFold_ne _ _ hpne] at hpv
    have hndmm : p.1 ∉ mm.map dayOfC := by
      intro hin
      apply hnd
      have h2 : p.1 ∈ (pre ++ x' :: post).map dayOfC := hdays ▸ hin
      exact ((hperm1.map dayOfC).mem_iff).mpr h2
    have hple : p.2 ≤ valOf lOld :=
      inv.dom (p.1, p.2) (dictGet_mem hpv) hndmm lOld hlOld
    refine le_trans hple (hbound1 l' (hperm1.mem_iff.mp (mem_of_getLast?_eq hl')))

/-- Step case: a new day arrives while the tracker is not full — the
record is appended and the tracker re-sorted, nothing evicted. -/
lemma peakInv_append_small {mm : List Consumption} {M : List (Int × ℚ)}
    {c : Consumption}
    (kND : (M.map Prod.fst).Nodup) (inv : PeakInv mm M)
    (hc : c.cons = some (valOf c))
    (hno : ∀ x ∈ mm, dayOfC x ≠ dayOfC c)
    (h3 : mm.length < 3) :
    PeakInv (sortDescC (mm ++ [c])) (dayMaxFold M (dayOfC c, valOf c)) := by
  have hMlen : M.length = mm.length := by
    have := inv.lenEq
    omega
  have hkeys := keys_eq_days kND inv.daysND inv.inM hMlen
  have hdM : dayOfC c ∉ M.map Prod.fst := by
    intro hin
    obtain ⟨y, hy, hyd⟩ := List.mem_map.mp ((hkeys _).mp hin)
    exact hno y hy hyd
  have hM' : dayMaxFold M (dayOfC c, valOf c) = M ++ [(dayOfC c, valOf c)] :=
    dayMaxFold_of_not_mem hdM
  have hknown1 : ∀ y ∈ mm ++ [c], y.cons = some (valOf y) := by
    intro y hy
    rcases List.mem_append.mp hy with hy | hy
    · exact inv.known y hy
    · rw [List.mem_singleton] at hy
      subst hy
      exact hc
  have hperm1 : (sortDescC (mm ++ [c])).Perm (mm ++ [c]) := sortDescC_perm _
  refine ⟨?_, sortDescC_sorted_vals hknown1, ?_, ?_, ?_, ?_⟩
  · intro y hy
    exact hknown1 y (hperm1.mem_iff.mp hy)
  · refine ((hperm1.map dayOfC).nodup_iff).mpr ?_
    rw [List.map_append, List.nodup_append]
    refine ⟨inv.daysND, by simp, ?_⟩
    intro a ha hb
    simp only [List.map_cons, List.map_nil, List.mem_singleton] at hb
    obtain ⟨y, hy, hyd⟩ := List.mem_map.mp ha
    exact hno y hy (by rw [hyd, hb])
  · intro y hy
    rcases List.mem_append.mp (hperm1.mem_iff.mp hy) with hy2 | hy2
    · rw [dictGet_dayMaxFold_ne _ _ (hno y hy2)]
      exact inv.inM y hy2
    · rw [List.mem_singleton] at hy2
      subst hy2
      rw [show dayOfC y = ((dayOfC y, valOf y) : Int × ℚ).1 from rfl,
        dictGet_dayMaxFold_self, (dictGet_eq_none_iff M (dayOfC y)).mpr hdM]
  · have h1 : (sortDescC (mm ++ [c])).length = mm.length + 1 := by
      rw [sortDescC_length]
      simp
    have h2 : (dayMaxFold M (dayOfC c, valOf c)).length = M.length + 1 := by
      rw [hM']
      simp
    rw [h1, h2]
    omega
  · intro p hp hnd l' hl'
    exfalso
    apply hnd
    have hpk : p.1 ∈ (dayMaxFold M (dayOfC c, valOf c)).map Prod.fst :=
      List.mem_map_of_mem Prod.fst hp
    rw [hM', List.map_append] at hpk
    rcases List.mem_append.mp hpk with hpk | hpk
    · obtain ⟨y, hy, hyd⟩ := List.mem_map.mp ((hkeys _).mp hpk)
      exact List.mem_map.mpr
        ⟨y, hperm1.mem_iff.mpr (List.mem_append_left _ hy), hyd⟩
    · simp only [List.map_cons, List.map_nil, List.mem_singleton] at hpk
      refine List.mem_map.mpr ⟨c, ?_, hpk.symm⟩
      exact hperm1.mem_iff.mpr
        (List.mem_append_right _ (List.mem_singleton_self c))

/-- Step case: a new day ranks above a full tracker's weakest entry —
the record is appended, the tracker re-sorted and the (now) smallest
entry evicted. -/
lemma peakInv_append_evict {mm : List Consumption} {M : List (Int × ℚ)}
    {c l : Consumption}
    (kND : (M.map Prod.fst).Nodup) (inv : PeakInv mm M)
    (hc : c.cons = some (valOf c))
    (hno : ∀ x ∈ mm, dayOfC x ≠ dayOfC c)
    (h3 : mm.length = 3)
    (hl : mm.getLast? = some l) (hg : consGT c l = true) :
    PeakInv ((sortDescC (mm ++ [c])).dropLast)
      (dayMaxFold M (dayOfC c, valOf c)) := by
  have hlmem := mem_of_getLast?_eq hl
  have hlk := inv.known l hlmem
  have hlt : valOf l < valOf c := by
    have hdec := consGT_known hc hlk
    rw [hg] at hdec
    exact of_decide_eq_true hdec.symm
  have hknown2 : ∀ y ∈ mm ++ [c], y.cons = some (valOf y) := by
    intro y hy
    rcases List.mem_append.mp hy with hy | hy
    · exact inv.known y hy
    · rw [List.mem_singleton] at hy
      subst hy
      exact hc
  have hperm3 : (sortDescC (mm ++ [c])).Perm (mm ++ [c]) := sortDescC_perm _
  have hsorted3 : List.Sorted (· ≥ ·) ((sortDescC (mm ++ [c])).map valOf) :=
    sortDescC_sorted_vals hknown2
  have hlen3 : (sortDescC (mm ++ [c])).length = mm.length + 1 := by
    rw [sortDescC_length]
    simp
  have hne3 : sortDescC (mm ++ [c]) ≠ [] := by
    intro he
    rw [he] at hlen3
    simp at hlen3
  obtain ⟨z, hz⟩ := Option.isSome_iff_exists.mp (List.getLast?_isSome.mpr hne3)
  have hsplit3 : (sortDescC (mm ++ [c])).dropLast ++ [z] = sortDescC (mm ++ [c]) :=
    List.dropLast_append_getLast? z hz
  have hzmin : ∀ y ∈ sortDescC (mm ++ [c]), valOf z ≤ valOf y :=
    fun y hy => sorted_last_min hsorted3 hz hy
  have hminOld : ∀ y ∈ mm, valOf l ≤ valOf y :=
    fun y hy => sorted_last_min inv.sorted hl hy
  have hminAll : ∀ y ∈ mm ++ [c], valOf l ≤ valOf y := by
    intro y hy
    rcases List.mem_append.mp hy with hy | hy
    · exact hminOld y hy
    · rw [List.mem_singleton] at hy
      subst hy
      exact le_of_lt hlt
  have hzl : valOf z ≤ valOf l :=
    hzmin l (hperm3.mem_iff.mpr (List.mem_append_left _ hlmem))
  have hzc : z ≠ c := by
    intro he
    rw [he] at hzl
    exact absurd hzl (not_le.mpr hlt)
  have hzmm : z ∈ mm := by
    rcases List.mem_append.mp (hperm3.mem_iff.mp (mem_of_getLast?_eq hz))
      with h | h
    · exact h
    · rw [List.mem_singleton] at h
      exact absurd h hzc
  have hcmem' : c ∈ (sortDescC (mm ++ [c])).dropLast := by
    have hcmem3 : c ∈ sortDescC (mm ++ [c]) :=
      hperm3.mem_iff.mpr (List.mem_append_right _ (List.mem_singleton_self c))
    rcases List.mem_append.mp
      (show c ∈ (sortDescC (mm ++ [c])).dropLast ++ [z] by
        rw [hsplit3]; exact hcmem3) with h | h
    · exact h
    · rw [List.mem_singleton] at h
      exact absurd h.symm hzc
  have hsub' : ((sortDescC (mm ++ [c])).dropLast).Sublist (sortDescC (mm ++ [c])) :=
    List.dropLast_sublist _
  have hmem' : ∀ y ∈ (sortDescC (mm ++ [c])).dropLast, y ∈ mm ++ [c] :=
    fun y hy => hperm3.mem_iff.mp (hsub'.subset hy)
  have hge_z : ∀ y ∈ (sortDescC (mm ++ [c])).dropLast, valOf z ≤ valOf y :=
    fun y hy => hzmin y (hsub'.subset hy)
  have hMselfval : dictGet (dayMaxFold M (dayOfC c, valOf c)) (dayOfC c)
      = some (valOf c) := by
    rw [show dayOfC c = ((dayOfC c, valOf c) : Int × ℚ).1 from rfl,
      dictGet_dayMaxFold_self]
    cases hG : dictGet M (dayOfC c) with
    | none => rfl
    | some w =>
      have hwmem := dictGet_mem hG
      have hwd : (dayOfC c, w).1 ∉ mm.map dayOfC := by
        intro hin
        obtain ⟨y, hy, hyd⟩ := List.mem_map.mp hin
        exact hno y hy hyd
      have hwle : w ≤ valOf l := inv.dom (dayOfC c, w) hwmem hwd l hl
      show some (max w (valOf c)) = some (valOf c)
      rw [max_eq_right (le_of_lt (lt_of_le_of_lt hwle hlt))]
  have hM3 : 3 ≤ M.length := by
    have := inv.lenEq
    omega
  have hdaysnd3 : ((sortDescC (mm ++ [c])).map dayOfC).Nodup := by
    refine ((hperm3.map dayOfC).nodup_iff).mpr ?_
    rw [List.map_append, List.nodup_append]
    refine ⟨inv.daysND, by simp, ?_⟩
    intro a ha hb
    simp only [List.map_cons, List.map_nil, List.mem_singleton] at hb
    obtain ⟨y, hy, hyd⟩ := List.mem_map.mp ha
    exact hno y hy (by rw [hyd, hb])
  refine ⟨?_, ?_, ?_, ?_, ?_, ?_⟩
  · intro y hy
    exact hknown2 y (hmem' y hy)
  · exact List.Pairwise.sublist (hsub'.map valOf) hsorted3
  · exact List.Nodup.sublist (hsub'.map dayOfC) hdaysnd3
  · intro y hy
    rcases List.mem_append.mp (hmem' y hy) with hy2 | hy2
    · rw [dictGet_dayMaxFold_ne _ _ (hno y hy2)]
      exact inv.inM y hy2
    · rw [List.mem_singleton] at hy2
      subst hy2
      exact hMselfval
  · have h1 : ((sortDescC (mm ++ [c])).dropLast).length = 3 := by
      rw [List.length_dropLast, hlen3, h3]
    have h2 := dayMaxFold_length M (dayOfC c, valOf c)
    rw [h1]
    omega
  · intro p hp hnd l' hl'
    have hl'mem := mem_of_getLast?_eq hl'
    have hdin : dayOfC c ∈ ((sortDescC (mm ++ [c])).dropLast).map dayOfC :=
      List.mem_map_of_mem dayOfC hcmem'
    have hpne : p.1 ≠ dayOfC c := fun he => hnd (he ▸ hdin)
    have hpv : dictGet (dayMaxFold M (dayOfC c, valOf c)) p.1 = some p.2 :=
      dictGet_of_mem_nodup (dayMaxFold_keys_nodup kND) hp
    rw [dictGet_dayMaxFold_ne _ _ hpne] at hpv
    by_cases hpmm : p.1 ∈ mm.map dayOfC
    · obtain ⟨y, hy, hyd⟩ := List.mem_map.mp hpmm
      have hy3 : y ∈ sortDescC (mm ++ [c]) :=
        hperm3.mem_iff.mpr (List.mem_append_left _ hy)
      rcases List.mem_append.mp
        (show y ∈ (sortDescC (mm ++ [c])).dropLast ++ [z] by
          rw [hsplit3]; exact hy3) with hyy | hyy
      · exact absurd (List.mem_map.mpr ⟨y, hyy, hyd⟩) hnd
      · rw [List.mem_singleton] at hyy
        subst hyy
        have hMz : dictGet M (dayOfC y) = some (valOf y) := inv.inM y hzmm
        rw [hyd] at hMz
        rw [hMz] at hpv
        simp only [Option.some.injEq] at hpv
        rw [← hpv]
        exact hge_z l' hl'mem
    · have hple : p.2 ≤ valOf l :=
        inv.dom (p.1, p.2) (dictGet_mem hpv) hpmm l hl
      exact le_trans hple (hminAll l' (hmem' l' hl'mem))

/-- The found-a-same-day-entry case of the step. -/
lemma peakInv_found_case {mm : List Consumption} {M : List (Int × ℚ)}
    {c : Consumption}
    (kND : (M.map Prod.fst).Nodup) (inv : PeakInv mm M)
    (hc : c.cons = some (valOf c))
    (hfound : (sameDayScan mm c).2 = true)
    (hupd2 : updMax mm c = sortDescC (sameDayScan mm c).1) :
    PeakInv (updMax mm c) (dayMaxFold M (dayOfC c, valOf c)) := by
  obtain ⟨pre, x, post, hmm, hxd, hscan⟩ := sameDayScan_found hfound
  have hxmem : x ∈ mm := by
    rw [hmm]
    exact List.mem_append_right _ (List.mem_cons_self _ _)
  have hxk := inv.known x hxmem
  rw [hupd2, hscan]
  by_cases hgx : consGT c x = true
  · rw [if_pos hgx]
    have hdec := consGT_known hc hxk
    rw [hdec] at hgx
    have hlt := of_decide_eq_true hgx
    exact peakInv_replace kND inv hmm hxd hxd.symm hc
      (max_eq_right (le_of_lt hlt)).symm
  · rw [if_neg hgx]
    have hdec := consGT_known hc hxk
    rw [eq_false_of_ne_true hgx] at hdec
    have hnlt : ¬ valOf x < valOf c := of_decide_eq_false hdec.symm
    exact peakInv_replace kND inv hmm hxd rfl hxk
      (max_eq_left (not_lt.mp hnlt)).symm

/-- One record preserves the streaming invariant. -/
lemma peakInv_step {mm : List Consumption} {M : List (Int × ℚ)}
    {c : Consumption}
    (kND : (M.map Prod.fst).Nodup) (inv : PeakInv mm M)
    (hc : c.cons = some (valOf c)) :
    PeakInv (updMax mm c) (dayMaxFold M (dayOfC c, valOf c)) := by
  by_cases h3 : mm.length < 3
  · have hupd := updMax_gate_true (Or.inl h3 : mm.length < 3 ∨ ∃ l0, mm.getLast? = some l0 ∧ consGT c l0 = true)
    by_cases hfound : (sameDayScan mm c).2 = true
    · have hupd2 : updMax mm c = sortDescC (sameDayScan mm c).1 := by
        rw [hupd, if_pos hfound, if_neg]
        rw [sortDescC_length, sameDayScan_length]
        omega
      exact peakInv_found_case kND inv hc hfound hupd2
    · have hf2 : (sameDayScan mm c).2 = false := by
        revert hfound
        cases (sameDayScan mm c).2 <;> simp
      have hno := sameDayScan_false_no_match hf2
      have hscan1 : (sameDayScan mm c).1 = mm := by
        rw [sameDayScan_not_found hno]
      have hupd2 : updMax mm c = sortDescC (mm ++ [c]) := by
        rw [hupd, if_neg hfound, hscan1, if_neg]
        rw [sortDescC_length, List.length_append]
        simp only [List.length_cons, List.length_nil]
        omega
      rw [hupd2]
      exact peakInv_append_small kND inv hc hno h3
  · have h3' : mm.length = 3 := by
      have := peakInv_len_le inv
      omega
    have hne : mm ≠ [] := by
      intro he
      rw [he] at h3'
      simp at h3'
    obtain ⟨l, hl⟩ := Option.isSome_iff_exists.mp (List.getLast?_isSome.mpr hne)
    by_cases hg : consGT c l = true
    · have hupd := updMax_gate_true (Or.inr ⟨l, hl, hg⟩ : mm.length < 3 ∨ ∃ l0, mm.getLast? = some l0 ∧ consGT c l0 = true)
      by_cases hfound : (sameDayScan mm c).2 = true
      · have hupd2 : updMax mm c = sortDescC (sameDayScan mm c).1 := by
          rw [hupd, if_pos hfound, if_neg]
          rw [sortDescC_length, sameDayScan_length]
          omega
        exact peakInv_found_case kND inv hc hfound hupd2
      · have hf2 : (sameDayScan mm c).2 = false := by
          revert hfound
          cases (sameDayScan mm c).2 <;> simp
        have hno := sameDayScan_false_no_match hf2
        have hscan1 : (sameDayScan mm c).1 = mm := by
          rw [sameDayScan_not_found hno]
        have hupd2 : updMax mm c = (sortDescC (mm ++ [c])).dropLast := by
          rw [hupd, if_neg hfound, hscan1, if_pos]
          rw [sortDescC_length, List.length_append]
          simp only [List.length_cons, List.length_nil]
          omega
        rw [hupd2]
        exact peakInv_append_evict kND inv hc hno h3' hl hg
    · rw [updMax_gate_false h3 hl (eq_false_of_ne_true hg)]
      exact peakInv_gate_false kND inv hc h3 hl (eq_false_of_ne_true hg)

/-- The whole consumption loop preserves the invariant against the
fold of per-day maxima. -/
lemma peakInv_loop (now : Int) :
    ∀ (lst : List RawHour) (st : LoopState) (M : List (Int × ℚ)),
      (M.map Prod.fst).Nodup → PeakInv st.mm M →
      (((monthPairs lst now).foldl dayMaxFold M).map Prod.fst).Nodup
      ∧ PeakInv (lst.foldl (peakStep now) st).mm
          ((monthPairs lst now).foldl dayMaxFold M) := by
  intro lst
  induction lst with
  | nil =>
    intro st M kND inv
    exact ⟨kND, inv⟩
  | cons h t ih =>
    intro st M kND inv
    cases hcons : h.consumption with
    | none =>
      have hp : monthPairs (h :: t) now = monthPairs t now := by
        unfold monthPairs
        rw [List.filterMap_cons]
        simp [hcons]
      have hs : peakStep now st h = st := by
        unfold peakStep
        rw [hcons]
      rw [List.foldl_cons, hs, hp]
      exact ih st M kND inv
    | some v =>
      by_cases hm : sameMonth h.fromTime now = true
      · have hp : monthPairs (h :: t) now
            = (dateOf h.fromTime, v) :: monthPairs t now := by
          unfold monthPairs
          rw [List.filterMap_cons]
          simp [hcons, hm]
        have hs : peakStep now st h
            = ⟨updMax st.mm ⟨h.fromTime, some v, h.unitPrice, h.cost⟩,
               setAdd st.mc ⟨h.fromTime, some v, h.unitPrice, h.cost⟩,
               st.yest || decide (dateOf h.fromTime = dateOf now - 1),
               st.today || decide (h.fromTime = now - 3600)⟩ := by
          unfold peakStep
          rw [hcons]
          simp [hm]
        rw [List.foldl_cons, hs, hp, List.foldl_cons]
        exact ih _ _ (dayMaxFold_keys_nodup kND) (peakInv_step kND inv rfl)
      · have hp : monthPairs (h :: t) now = monthPairs t now := by
          unfold monthPairs
          rw [List.filterMap_cons]
          simp [hcons, hm]
        have hs : peakStep now st h = st := by
          unfold peakStep
          rw [hcons]
          simp [hm]
        rw [List.foldl_cons, hs, hp]
        exact ih st M kND inv

lemma peakInv_final (lst : List RawHour) (now : Int) :
    ((dayMaxima lst now).map Prod.fst).Nodup
    ∧ PeakInv (loopResult lst now).mm (dayMaxima lst now) := by
  unfold loopResult dayMaxima
  exact peakInv_loop now lst ⟨[], [], false, false⟩ [] (by simp) peakInv_nil

/-- The streaming tracker's value list is exactly the three largest
per-day maxima, sorted descending. -/
lemma tracker_vals_eq_top3 (lst : List RawHour) (now : Int) :
    (loopResult lst now).mm.map valOf = top3DayValues lst now := by
  obtain ⟨kND, inv⟩ := peakInv_final lst now
  have h0 := List.filter_append_perm
    (fun p : Int × ℚ => decide (p.1 ∈ (loopResult lst now).mm.map dayOfC))
    (dayMaxima lst now)
  have h1 := keyed_perm (loopResult lst now).mm (dayMaxima lst now)
    kND inv.daysND inv.inM
  have hperm : ((dayMaxima lst now).map Prod.snd).Perm
      ((loopResult lst now).mm.map valOf
        ++ ((dayMaxima lst now).filter
            (fun p => !(decide (p.1 ∈ (loopResult lst now).mm.map dayOfC)))).map
              Prod.snd) := by
    have h2 := (h0.map Prod.snd).symm
    rw [List.map_append] at h2
    exact h2.trans (h1.append_right _)
  have hlen : ((loopResult lst now).mm.map valOf).length
      = min 3 ((dayMaxima lst now).map Prod.snd).length := by
    rw [List.length_map, List.length_map]
    exact inv.lenEq
  have hdom : ∀ x ∈ ((dayMaxima lst now).filter
      (fun p => !(decide (p.1 ∈ (loopResult lst now).mm.map dayOfC)))).map
        Prod.snd,
      ∀ y ∈ (loopResult lst now).mm.map valOf, x ≤ y := by
    intro x hx y hy
    obtain ⟨p, hp, rfl⟩ := List.mem_map.mp hx
    have hpfilter := List.mem_filter.mp hp
    have hpnd : p.1 ∉ (loopResult lst now).mm.map dayOfC := by
      simpa using hpfilter.2
    obtain ⟨cY, hcY, rfl⟩ := List.mem_map.mp hy
    have hne : (loopResult lst now).mm ≠ [] := by
      intro he
      rw [he] at hcY
      cases hcY
    obtain ⟨l, hl⟩ := Option.isSome_iff_exists.mp
      (List.getLast?_isSome.mpr hne)
    exact le_trans (inv.dom p hpfilter.1 hpnd l hl)
      (sorted_last_min inv.sorted hl hcY)
  exact (take3_selection hperm inv.sorted hlen hdom).symm

/-- The published peak metric agrees with the spec-side description. -/
lemma codePeak_eq_specPeak (lst : List RawHour) (now : Int) :
    codePeak (loopResult lst now).mm = specPeak lst now := by
  have hv := tracker_vals_eq_top3 lst now
  have hlen : (loopResult lst now).mm.length = (top3DayValues lst now).length := by
    rw [← hv, List.length_map]
  unfold codePeak specPeak sumVals
  by_cases he : (loopResult lst now).mm = []
  · rw [he] at hlen
    have ht : (top3DayValues lst now) = [] :=
      List.length_eq_zero.mp hlen.symm
    rw [he, ht]
    rfl
  · have hmmE : (loopResult lst now).mm.isEmpty = false := by
      cases hmm : (loopResult lst now).mm with
      | nil => exact absurd hmm he
      | cons a l => rfl
    have htE : (top3DayValues lst now).isEmpty = false := by
      cases ht : top3DayValues lst now with
      | nil =>
        rw [ht] at hlen
        exact absurd (List.length_eq_zero.mp hlen) he
      | cons a l => rfl
    simp only [hmmE, htE, Bool.false_eq_true, if_false]
    rw [← hv, List.length_map]

/-- The aggregate step never touches the peak fields. -/
lemma computeAggregates_peak (L : List Consumption) (now : Int) (d : DataState) :
    (computeAggregates L now d).1.peak_consumption = d.peak_consumption
    ∧ (computeAggregates L now d).1.peak_consumption_attrs
        = d.peak_consumption_attrs := by
  by_cases h1 : (computeTotals L now).np = 0
  · constructor <;> simp [computeAggregates, h1]
  by_cases h2 : (computeTotals L now).np0 = 0
  · constructor <;> simp [computeAggregates, h1, h2]
  by_cases h3 : (computeTotals L now).tcons = 0
  · constructor <;> simp [computeAggregates, h1, h2, h3]
  constructor <;> simp [computeAggregates, h1, h2, h3]

/-- `_get_data` publishes the peak fields computed by the loop. -/
lemma getData_peak (lst : List RawHour) (hasRT : Bool) (pt : List (Int × ℚ))
    (d : DataState) (s : List Consumption) (now : Int) :
    (getData (.ok lst) hasRT pt d s now).data.peak_consumption
      = codePeak (loopResult lst now).mm
    ∧ (getData (.ok lst) hasRT pt d s now).data.peak_consumption_attrs
      = codeAttrs (loopResult lst now).mm := by
  unfold getData
  simp only
  split
  · rename_i d2 e hagg
    have hp := computeAggregates_peak (priceFold pt now (loopResult lst now).mc).1
      now { d with peak_consumption := codePeak (loopResult lst now).mm,
                   peak_consumption_attrs := codeAttrs (loopResult lst now).mm }
    rw [hagg] at hp
    exact hp
  · rename_i d2 hagg
    have hp := computeAggregates_peak (priceFold pt now (loopResult lst now).mc).1
      now { d with peak_consumption := codePeak (loopResult lst now).mm,
                   peak_consumption_attrs := codeAttrs (loopResult lst now).mm }
    rw [hagg] at hp
    exact hp

/-- C6: after every primary-fetcher pass, `peak_consumption` equals
the arithmetic mean of the up-to-3 largest distinct-day consumption
maxima (each day contributing only its maximum hour); when no in-month
record has known consumption both the metric and its attributes are
absent; and the tracker never exceeds 3 entries nor holds two entries
for one day. -/
theorem peak_consumption_correct (lst : List RawHour) (hasRT : Bool)
    (pt : List (Int × ℚ)) (d : DataState) (s : List Consumption) (now : Int) :
    (getData (.ok lst) hasRT pt d s now).data.peak_consumption
        = specPeak lst now
    ∧ (specPeak lst now = none →
        (getData (.ok lst) hasRT pt d s now).data.peak_consumption = none
        ∧ (getData (.ok lst) hasRT pt d s now).data.peak_consumption_attrs
            = none)
    ∧ (loopResult lst now).mm.length ≤ 3
    ∧ ((loopResult lst now).mm.map dayOfC).Nodup := by
  obtain ⟨kND, inv⟩ := peakInv_final lst now
  obtain ⟨hpk, hat⟩ := getData_peak lst hasRT pt d s now
  have hcs := codePeak_eq_specPeak lst now
  refine ⟨by rw [hpk, hcs], ?_, peakInv_len_le inv, inv.daysND⟩
  intro hnone
  have hempty : (loopResult lst now).mm = [] := by
    by_contra hne
    have hf : (loopResult lst now).mm.isEmpty = false := by
      cases hmm : (loopResult lst now).mm with
      | nil => exact absurd hmm hne
      | cons a l => rfl
    rw [← hcs] at hnone
    unfold codePeak at hnone
    rw [hf] at hnone
    simp at hnone
  constructor
  · rw [hpk, hcs]
    exact hnone
  · rw [hat, hempty]
    rfl

/-- C6 witness: with no in-month consumption the metric and attributes
are absent; with day 40 having hourly values [1,2,3,10] and days 41/42
having 4 and 5, the metric is the mean of 10, 5 and 4 — day 40
contributes only its maximum hour. -/
theorem peak_consumption_correct_witness :
    specPeak ([] : List RawHour) 0 = none
    ∧ (getData (.ok ([] : List RawHour)) false [] {} [] 0).data.peak_consumption
        = none
    ∧ (getData (.ok ([] : List RawHour)) false [] {} []
        0).data.peak_consumption_attrs = none
    ∧ (getData (.ok [⟨3456000, some 1, none, none⟩,
          ⟨3459600, some 2, none, none⟩,
          ⟨3463200, some 3, none, none⟩,
          ⟨3466800, some 10, none, none⟩,
          ⟨3542400, some 4, none, none⟩,
          ⟨3628800, some 5, none, none⟩]) false [] {} []
        3456000).data.peak_consumption = some (19 / 3) := by
  have hn : specPeak ([] : List RawHour) 0 = none := rfl
  refine ⟨hn,
    (peak_consumption_correct [] false [] {} [] 0).2.1 hn |>.1,
    (peak_consumption_correct [] false [] {} [] 0).2.1 hn |>.2, ?_⟩
  rw [(peak_consumption_correct [⟨3456000, some 1, none, none⟩,
        ⟨3459600, some 2, none, none⟩,
        ⟨3463200, some 3, none, none⟩,
        ⟨3466800, some 10, none, none⟩,
        ⟨3542400, some 4, none, none⟩,
        ⟨3628800, some 5, none, none⟩] false [] {} [] 3456000).1]
  norm_num [specPeak, top3DayValues, dayMaxima, monthPairs, dayMaxFold,
    sortDescQ, insertDescQ, sameMonth, monthOf, yearOf, civilFromDays,
    dateOf, max_def]
